import Mathlib

/-! Forward-chaining inference engine: embedding and verification.

Shallow embedding of the C sources `list.c`, `rule.c`, `kb.c`, `hash.c` and
`inference.c`, followed by theorems about the rebuild operation (`inference`)
and the fixpoint driver (`moteur_inference`).

Conventions of the embedding:

* a C string is the list of its bytes before the terminating NUL (`CStr`);
  `strcmp(a, b) == 0` is equality of these lists;
* a singly linked list is the list of the payloads reachable from `head`; the
  `tail` pointer is the last node of that list and is `NULL` exactly when the
  list is empty, so the test `L->tail == NULL` is a test for emptiness;
* `size_t` is 64 bits wide: arithmetic on it is taken modulo `2 ^ 64`;
* allocation succeeds (`xmalloc` never exits, `malloc` never returns `NULL`);
* `printf` output is recorded as a list of lines (`Ligne`).
-/

namespace Moteur

/-! ## Strings -/

/-- C string: the bytes before the terminating NUL. -/
abbrev CStr := List Nat

/-! ## list.c -/

/-- The struct `Liste` of `list.h`: the payloads of the nodes reachable from
`head`, in order, and the `size` field. -/
structure Liste where
  elems : List CStr
  size : Nat
deriving DecidableEq, Repr

/-- Modulus of `size_t` arithmetic. -/
def SIZE_MOD : Nat := 2 ^ 64

/-- `liste_init`: `head = tail = NULL`, `size = 0`. -/
def liste_init : Liste := { elems := [], size := 0 }

/-- `liste_est_vide`: `L->head == NULL`. -/
def liste_est_vide (L : Liste) : Bool := L.elems.isEmpty

/-- `liste_ajouter_en_queue`: a fresh node holding a copy of `s` is linked
after the tail (or becomes head and tail of an empty list), then `size++`. -/
def liste_ajouter_en_queue (L : Liste) (s : CStr) : Liste :=
  { elems := L.elems ++ [s], size := (L.size + 1) % SIZE_MOD }

/-- `contient_rec_node`: recursive search from a node. -/
def contient_rec_node : List CStr → CStr → Bool
  | [], _ => false
  | t :: next, s => if t = s then true else contient_rec_node next s

/-- `liste_contient_rec`: search from `L->head`. -/
def liste_contient_rec (L : Liste) (s : CStr) : Bool :=
  contient_rec_node L.elems s

/-- The `while (cur)` loop of `liste_supprimer_premiere` from the node `cur`:
the nodes left from `cur` on once the first node equal to `s` is unlinked and
freed, or `none` when the end is reached without a match. -/
def liste_supprimer_premiere_boucle : List CStr → CStr → Option (List CStr)
  | [], _ => none
  | t :: next, s =>
    if t = s then some next
    else
      match liste_supprimer_premiere_boucle next s with
      | some l => some (t :: l)
      | none => none

/-- `liste_supprimer_premiere`: the first node equal to `s` is unlinked, `size--`
and `true` is returned; `false` and an untouched list when there is none. -/
def liste_supprimer_premiere (L : Liste) (s : CStr) : Bool × Liste :=
  match liste_supprimer_premiere_boucle L.elems s with
  | some l => (true, { elems := l, size := (L.size + SIZE_MOD - 1) % SIZE_MOD })
  | none => (false, L)

/-- `liste_vider`: every node is freed, then `liste_init`. -/
def liste_vider (_L : Liste) : Liste := liste_init

/-- `liste_tete`: the string of the first node, `NULL` (`none`) on an empty list. -/
def liste_tete (L : Liste) : Option CStr :=
  match L.elems with
  | [] => none
  | s :: _ => some s

/-! ## rule.c -/

/-- The struct `Regle` of `rule.h`: premises and a conclusion that is `NULL`
(`none`) while undefined. -/
structure Regle where
  premisses : Liste
  conclusion : Option CStr
deriving DecidableEq, Repr

/-- `regle_init`: no premise, `conclusion = NULL`. -/
def regle_init : Regle := { premisses := liste_init, conclusion := none }

/-- `regle_ajouter_premisse`: append to the premises. -/
def regle_ajouter_premisse (R : Regle) (p : CStr) : Regle :=
  { R with premisses := liste_ajouter_en_queue R.premisses p }

/-- `regle_definir_conclusion` called with a string `c` that is stored outside
the conclusion buffer of the rule, as in every call the program makes (a
literal, the input buffer, the conclusion of another rule): the old conclusion
is freed and replaced by a copy of `c`. The call with a pointer into the
rule's own conclusion is `regle_definir_conclusion_pointeur`. -/
def regle_definir_conclusion (R : Regle) (c : CStr) : Regle :=
  { R with conclusion := some c }

/-- `regle_obtenir_conclusion`: `R->conclusion`. -/
def regle_obtenir_conclusion (R : Regle) : Option CStr := R.conclusion

/-- The argument `c` of `regle_definir_conclusion`, a pointer to a string:
either a string stored outside the rule, or the address `R->conclusion + k`
inside the conclusion buffer of the rule itself (`k = 0` is the pointer that
`regle_obtenir_conclusion(R)` returns). -/
inductive PointeurChaine where
  /-- A string stored outside the conclusion buffer of the rule. -/
  | externe (c : CStr)
  /-- The address `R->conclusion + k`. -/
  | dans_conclusion (k : Nat)
deriving DecidableEq, Repr

/-- The string found at the pointer when `regle_definir_conclusion` is entered:
for `R->conclusion + k`, the conclusion of the rule from its byte `k` on;
`none` when the pointer is `NULL` or outside the buffer. -/
def pointeur_chaine (R : Regle) : PointeurChaine → Option CStr
  | PointeurChaine.externe c => some c
  | PointeurChaine.dans_conclusion k =>
    match R.conclusion with
    | none => none
    | some s => if k ≤ s.length then some (s.drop k) else none

/-- The string that can be read at the pointer once `free(R->conclusion)` has
run: a string outside the buffer is intact, the buffer itself is released
(`none`). -/
def pointeur_chaine_apres_free : PointeurChaine → Option CStr
  | PointeurChaine.externe c => some c
  | PointeurChaine.dans_conclusion _ => none

/-- `regle_definir_conclusion` with its pointer argument, in the order of the
source: `free(R->conclusion)`, then `R->conclusion = xstrdup(c)`. When `c`
points into the conclusion of the rule itself, `xstrdup` reads the block just
freed and the call has no defined result (`none`). -/
def regle_definir_conclusion_pointeur (R : Regle) (c : PointeurChaine) : Option Regle :=
  match pointeur_chaine_apres_free c with
  | some s => some (regle_definir_conclusion R s)
  | none => none

/-- `regle_supprimer_premisse`: `liste_supprimer_premiere` on the premises. -/
def regle_supprimer_premisse (R : Regle) (p : CStr) : Bool × Regle :=
  ((liste_supprimer_premiere R.premisses p).1,
    { R with premisses := (liste_supprimer_premiere R.premisses p).2 })

/-- `regle_premisses_vide`: `liste_est_vide` on the premises. -/
def regle_premisses_vide (R : Regle) : Bool := liste_est_vide R.premisses

/-- `regle_detruire`: the premises are emptied, the conclusion freed and set to
`NULL`. -/
def regle_detruire (R : Regle) : Regle :=
  { premisses := liste_vider R.premisses, conclusion := none }

/-! ## kb.c -/

/-- The struct `BaseConnaissances` of `kb.h`: the rules of the nodes reachable
from `head`, in order, and the `size` field. -/
structure BaseConnaissances where
  regles : List Regle
  size : Nat
deriving DecidableEq, Repr

/-- `bc_init`: `head = tail = NULL`, `size = 0`. -/
def bc_init : BaseConnaissances := { regles := [], size := 0 }

/-- `bc_est_vide`: `BC->head == NULL`. -/
def bc_est_vide (BC : BaseConnaissances) : Bool := BC.regles.isEmpty

/-- The copy loop of `bc_ajouter_regle_en_queue`: each premise of the source
rule is appended to the rule of the new node. -/
def bc_copier_premisses : List CStr → Regle → Regle
  | [], n => n
  | p :: next, n => bc_copier_premisses next (regle_ajouter_premisse n p)

/-- `bc_ajouter_regle_en_queue`: a new node whose rule is initialised, filled
with the premises of `R`, given the conclusion of `R` when it has one, and
linked at the end; then `size++`. -/
def bc_ajouter_regle_en_queue (BC : BaseConnaissances) (R : Regle) : BaseConnaissances :=
  let n0 := bc_copier_premisses R.premisses.elems regle_init
  let n := match R.conclusion with
    | some c => regle_definir_conclusion n0 c
    | none => n0
  { regles := BC.regles ++ [n], size := (BC.size + 1) % SIZE_MOD }

/-- The walk of `bc_supprimer_regle_index` to the node of index `idx` and its
unlinking: the rules left, or `none` when the walk runs past the last node
(a `NULL` node is dereferenced). -/
def bc_supprimer_regle_index_boucle : List Regle → Nat → Option (List Regle)
  | [], _ => none
  | _ :: next, 0 => some next
  | R :: next, idx + 1 =>
    match bc_supprimer_regle_index_boucle next idx with
    | some l => some (R :: l)
    | none => none

/-- `bc_supprimer_regle_index`: `false` when `idx >= size`; otherwise the node
of index `idx` is unlinked and destroyed, `size--`, and `true` is returned.
`none` when the list is shorter than `size` says and the walk leaves it. -/
def bc_supprimer_regle_index (BC : BaseConnaissances) (idx : Nat) :
    Option (Bool × BaseConnaissances) :=
  if idx ≥ BC.size then some (false, BC)
  else
    match bc_supprimer_regle_index_boucle BC.regles idx with
    | some l => some (true, { regles := l, size := (BC.size + SIZE_MOD - 1) % SIZE_MOD })
    | none => none

/-- `bc_vider`: every node is destroyed, then `bc_init`. -/
def bc_vider (_BC : BaseConnaissances) : BaseConnaissances := bc_init

/-! ## hash.c -/

/-- `HASH_SIZE` of `hash.h`. -/
def HASH_SIZE : Nat := 1000

/-- The struct `HashTable` of `hash.h`: an array of `HASH_SIZE` buckets, each a
chain of propositions (head of the chain first). -/
structure HashTable where
  table : Fin HASH_SIZE → List CStr

/-- The `while (*str)` loop of `hash_function`:
`hash = hash * 31 + (unsigned char) *str++` on a `size_t`. -/
def hash_function_boucle : Nat → CStr → Nat
  | hash, [] => hash
  | hash, c :: str => hash_function_boucle ((hash * 31 + c % 256) % SIZE_MOD) str

/-- `hash_function`: the accumulated value reduced modulo `HASH_SIZE`. -/
def hash_function (str : CStr) : Fin HASH_SIZE :=
  ⟨hash_function_boucle 0 str % HASH_SIZE, Nat.mod_lt _ (by decide)⟩

/-- The `for` loop of `hash_table_init`, after its first `n` iterations:
`table[i] = NULL` for the indices `i < n`. -/
def hash_table_init_boucle : Nat → (Fin HASH_SIZE → List CStr) → Fin HASH_SIZE → List CStr
  | 0, t => t
  | n + 1, t => fun j => if j.val = n then [] else hash_table_init_boucle n t j

/-- `hash_table_init`: every bucket is set to `NULL`, whatever it held. -/
def hash_table_init (ht : HashTable) : HashTable :=
  { table := hash_table_init_boucle HASH_SIZE ht.table }

/-- `hash_table_insert`: a new node holding a copy of `proposition` is linked
at the head of the chain of its bucket. -/
def hash_table_insert (ht : HashTable) (proposition : CStr) : HashTable :=
  let index := hash_function proposition
  { table := fun i => if i = index then proposition :: ht.table i else ht.table i }

/-- The `while (current)` loop of `hash_table_contains`. -/
def hash_table_contains_boucle : List CStr → CStr → Bool
  | [], _ => false
  | current :: next, proposition =>
    if current = proposition then true else hash_table_contains_boucle next proposition

/-- `hash_table_contains`: search of the chain of the bucket of `proposition`. -/
def hash_table_contains (ht : HashTable) (proposition : CStr) : Bool :=
  hash_table_contains_boucle (ht.table (hash_function proposition)) proposition

/-- The `for` loop of `hash_table_clear`, after its first `n` iterations: the
chain of each bucket `i < n` is freed node by node and `table[i] = NULL`. -/
def hash_table_clear_boucle : Nat → (Fin HASH_SIZE → List CStr) → Fin HASH_SIZE → List CStr
  | 0, t => t
  | n + 1, t => fun j => if j.val = n then [] else hash_table_clear_boucle n t j

/-- `hash_table_clear`: every chain is freed and every bucket reset. -/
def hash_table_clear (ht : HashTable) : HashTable :=
  { table := hash_table_clear_boucle HASH_SIZE ht.table }

/-! ## inference.c -/

/-- `BaseFaits` of `inference.h`: a list of facts. -/
abbrev BaseFaits := Liste

/-- The `for` loop of `inference`: each fact is inserted, in list order. -/
def inference_boucle : List CStr → HashTable → HashTable
  | [], ht => ht
  | s :: next, ht => inference_boucle next (hash_table_insert ht s)

/-- `inference`: clear the table, initialise it, insert every fact of `BF`.
The parameter is declared `BaseConnaissances *` in the source but is walked as
a list of strings (`ListNode *p = BF->head`, `p->s`); it is a fact list here. -/
def inference (BF : BaseFaits) (ht : HashTable) : HashTable :=
  inference_boucle BF.elems (hash_table_init (hash_table_clear ht))

/-- `inference` called with a pointer that may be `NULL` (`none`): the source
reads `BF->head` without testing `BF`, so that a `NULL` pointer is
dereferenced and the call has no defined result (`none`). -/
def inference_pointeur (BF : Option BaseFaits) (ht : HashTable) : Option HashTable :=
  match BF with
  | none => none
  | some L => some (inference L ht)

/-- The loop of `toutes_premisses_vraies` over the premise nodes. -/
def toutes_premisses_vraies_boucle : List CStr → BaseFaits → Bool
  | [], _ => true
  | s :: next, BF =>
    if !liste_contient_rec BF s then false else toutes_premisses_vraies_boucle next BF

/-- `toutes_premisses_vraies`: every premise of `R` is found in `BF`. -/
def toutes_premisses_vraies (R : Regle) (BF : BaseFaits) : Bool :=
  toutes_premisses_vraies_boucle R.premisses.elems BF

/-- A line written by `moteur_inference` on standard output. -/
inductive Ligne where
  /-- The line `>> Nouvelle déduction : c`. -/
  | deduction (c : CStr)
  /-- The line `Inférence terminée.` -/
  | terminee
deriving DecidableEq, Repr

/-- What `moteur_inference` reads and writes while it runs: the fact base, the
table, the local variable `nouveau` and the lines printed so far. -/
structure Etat where
  BF : BaseFaits
  ht : HashTable
  nouveau : Bool
  sortie : List Ligne

/-- Body of the `for` loop of `moteur_inference` for the rule `R`. -/
def moteur_inference_regle (R : Regle) (e : Etat) : Etat :=
  match regle_obtenir_conclusion R with
  | none => e
  | some c =>
    if toutes_premisses_vraies R e.BF && !hash_table_contains e.ht c then
      { BF := liste_ajouter_en_queue e.BF c
        ht := hash_table_insert e.ht c
        nouveau := true
        sortie := e.sortie ++ [Ligne.deduction c] }
    else e

/-- The `for` loop of `moteur_inference` over the rule nodes. -/
def moteur_inference_for : List Regle → Etat → Etat
  | [], e => e
  | R :: next, e => moteur_inference_for next (moteur_inference_regle R e)

/-- One pass of the `while` loop: `nouveau = false`, then the `for` loop. -/
def moteur_inference_passe (BC : BaseConnaissances) (e : Etat) : Etat :=
  moteur_inference_for BC.regles { e with nouveau := false }

/-- The `while (nouveau)` loop, allowed to run its body at most `fuel` times:
`none` when the condition still holds after `fuel` passes. -/
def moteur_inference_while (BC : BaseConnaissances) : Nat → Etat → Option Etat
  | 0, e => if e.nouveau then none else some e
  | fuel + 1, e =>
    if e.nouveau then moteur_inference_while BC fuel (moteur_inference_passe BC e)
    else some e

/-- `moteur_inference`, with at most `fuel` passes of its `while` loop:
`nouveau = true`, the loop, then the closing line. -/
def moteur_inference (fuel : Nat) (BC : BaseConnaissances) (BF : BaseFaits) (ht : HashTable) :
    Option Etat :=
  match moteur_inference_while BC fuel { BF := BF, ht := ht, nouveau := true, sortie := [] } with
  | none => none
  | some e => some { e with sortie := e.sortie ++ [Ligne.terminee] }

/-! ## main.c

The menu loop is modelled on its three variables. A command is a menu choice
together with what `lire_entier` and `lire_ligne` return while it is served:
a line is the buffer after `trim`, `none` when the read fails. What the
program prints is left out. -/

/-- The variables `BC`, `BF` and `ht` of `main`. -/
structure Programme where
  BC : BaseConnaissances
  BF : BaseFaits
  ht : HashTable

/-- A menu choice with the values read while it is served. -/
inductive Commande where
  /-- Choice 1, with the lines read until the rule is complete or the input ends. -/
  | ajouter_regle (lignes : List CStr)
  /-- Choice 2, with the line read. -/
  | ajouter_fait (ligne : Option CStr)
  /-- Choice 3. -/
  | lancer_inference
  /-- Choices 4, 5 and 11, and any choice that is not in the menu. -/
  | sans_effet
  /-- Choice 6, with the integer read. -/
  | supprimer_regle (entier : Option Int)
  /-- Choice 7, with the line read. -/
  | supprimer_fait (ligne : Option CStr)
  /-- Choice 8. -/
  | supprimer_regles
  /-- Choice 9. -/
  | supprimer_faits
  /-- Choice 10, with the integer and the line read. -/
  | supprimer_premisse (entier : Option Int) (ligne : Option CStr)

/-- First loop of `ajouter_regle`: premises are read until an empty line;
`none` when the input ends first (the rule is destroyed). -/
def ajouter_regle_premisses : List CStr → Regle → Option (Regle × List CStr)
  | [], _ => none
  | buf :: suite, R =>
    if buf = [] then some (R, suite)
    else ajouter_regle_premisses suite (regle_ajouter_premisse R buf)

/-- Second loop of `ajouter_regle`: lines are read until one is not empty;
`none` when the input ends first. -/
def ajouter_regle_conclusion : List CStr → Option CStr
  | [] => none
  | buf :: suite => if buf ≠ [] then some buf else ajouter_regle_conclusion suite

/-- `ajouter_regle`: the rule read is appended to the rule base. -/
def ajouter_regle (BC : BaseConnaissances) (lignes : List CStr) : BaseConnaissances :=
  match ajouter_regle_premisses lignes regle_init with
  | none => BC
  | some (R, suite) =>
    match ajouter_regle_conclusion suite with
    | none => BC
    | some buf => bc_ajouter_regle_en_queue BC (regle_definir_conclusion R buf)

/-- `ajouter_fait`: a non-empty line that `liste_contient_rec` does not find in
`BF` is appended to it. -/
def ajouter_fait (BF : BaseFaits) (ligne : Option CStr) : BaseFaits :=
  match ligne with
  | none => BF
  | some buf =>
    if buf = [] then BF
    else if !liste_contient_rec BF buf then liste_ajouter_en_queue BF buf
    else BF

/-- `supprimer_regle`: a read integer that is not negative is passed to
`bc_supprimer_regle_index`. -/
def supprimer_regle (BC : BaseConnaissances) (entier : Option Int) :
    Option BaseConnaissances :=
  match entier with
  | none => some BC
  | some idx =>
    if idx < 0 then some BC
    else
      match bc_supprimer_regle_index BC idx.toNat with
      | some res => some res.2
      | none => none

/-- `supprimer_fait`: a non-empty line is passed to `liste_supprimer_premiere`. -/
def supprimer_fait (BF : BaseFaits) (ligne : Option CStr) : BaseFaits :=
  match ligne with
  | none => BF
  | some buf => if buf = [] then BF else (liste_supprimer_premiere BF buf).2

/-- The rule of the node of index `idx` loses its first premise equal to `buf`;
`none` when there is no such node. -/
def supprimer_premisse_noeud : List Regle → Nat → CStr → Option (List Regle)
  | [], _, _ => none
  | R :: next, 0, buf => some ((regle_supprimer_premisse R buf).2 :: next)
  | R :: next, idx + 1, buf =>
    match supprimer_premisse_noeud next idx buf with
    | some l => some (R :: l)
    | none => none

/-- `supprimer_premisse`: for an index below `size`, the node is reached, a line
is read and, when not empty, removed from the premises of the rule of that
node. `none` when a `NULL` node is dereferenced. -/
def supprimer_premisse (BC : BaseConnaissances) (entier : Option Int) (ligne : Option CStr) :
    Option BaseConnaissances :=
  match entier with
  | none => some BC
  | some idx =>
    if idx < 0 then some BC
    else if idx.toNat ≥ BC.size then some BC
    else if BC.regles.length < idx.toNat then none
    else
      match ligne with
      | none => some BC
      | some buf =>
        if buf = [] then some BC
        else
          match supprimer_premisse_noeud BC.regles idx.toNat buf with
          | some l => some { BC with regles := l }
          | none => none

/-- The state of `main` when it enters the menu loop: `bc_init`, `liste_init`
and `hash_table_init` on the variables just declared. -/
def main_depart (ht0 : HashTable) : Programme :=
  { BC := bc_init, BF := liste_init, ht := hash_table_init ht0 }

/-- One turn of the menu loop of `main`, a run of `moteur_inference` being
allowed `fuel` passes. -/
def main_etape (fuel : Nat) (p : Programme) : Commande → Option Programme
  | Commande.ajouter_regle lignes => some { p with BC := ajouter_regle p.BC lignes }
  | Commande.ajouter_fait ligne => some { p with BF := ajouter_fait p.BF ligne }
  | Commande.lancer_inference =>
    if bc_est_vide p.BC then some p
    else
      match moteur_inference fuel p.BC p.BF p.ht with
      | some e => some { p with BF := e.BF, ht := e.ht }
      | none => none
  | Commande.sans_effet => some p
  | Commande.supprimer_regle entier =>
    match supprimer_regle p.BC entier with
    | some BC => some { p with BC := BC }
    | none => none
  | Commande.supprimer_fait ligne => some { p with BF := supprimer_fait p.BF ligne }
  | Commande.supprimer_regles => some { p with BC := bc_vider p.BC }
  | Commande.supprimer_faits =>
    some { p with BF := liste_vider p.BF, ht := hash_table_init (hash_table_clear p.ht) }
  | Commande.supprimer_premisse entier ligne =>
    match supprimer_premisse p.BC entier ligne with
    | some BC => some { p with BC := BC }
    | none => none

/-- The menu loop of `main` on a sequence of commands. -/
def main_boucle (fuel : Nat) : List Commande → Programme → Option Programme
  | [], p => some p
  | c :: suite, p =>
    match main_etape fuel p c with
    | some p' => main_boucle fuel suite p'
    | none => none

/-! ## Notions used to state the properties -/

/-- The table mirrors the fact base: it contains exactly the facts of `BF`. -/
def Miroir (BF : BaseFaits) (ht : HashTable) : Prop :=
  ∀ f : CStr, hash_table_contains ht f = true ↔ f ∈ BF.elems

/-- The test made by `moteur_inference` on a rule: it has a conclusion, its
premises are all in `BF` and the table does not contain the conclusion. -/
def regle_applicable (R : Regle) (BF : BaseFaits) (ht : HashTable) : Bool :=
  match regle_obtenir_conclusion R with
  | none => false
  | some c => toutes_premisses_vraies R BF && !hash_table_contains ht c

/-- The set `S` is closed under the rules of `BC` that have a conclusion. -/
def Clos (BC : BaseConnaissances) (S : CStr → Prop) : Prop :=
  ∀ R ∈ BC.regles, ∀ c, regle_obtenir_conclusion R = some c →
    (∀ p ∈ R.premisses.elems, S p) → S c

/-- The strings announced by the lines `>> Nouvelle déduction`, in order. -/
def deductions : List Ligne → List CStr
  | [] => []
  | Ligne.deduction c :: l => c :: deductions l
  | Ligne.terminee :: l => deductions l

/-- The distinct conclusion strings of the rules of `BC`. -/
def conclusions (BC : BaseConnaissances) : List CStr :=
  (BC.regles.filterMap regle_obtenir_conclusion).dedup

/-- The distinct conclusion strings of `BC` that the table does not contain. -/
def conclusions_absentes (BC : BaseConnaissances) (ht : HashTable) : List CStr :=
  (conclusions BC).filter (fun c => !hash_table_contains ht c)

/-- A call that modifies a list: `liste_ajouter_en_queue`,
`liste_supprimer_premiere` or `liste_vider`. -/
inductive OpListe where
  /-- The call `liste_ajouter_en_queue(L, s)`. -/
  | ajouter (s : CStr)
  /-- The call `liste_supprimer_premiere(L, s)`. -/
  | supprimer (s : CStr)
  /-- The call `liste_vider(L)`. -/
  | vider
deriving DecidableEq, Repr

/-- The list left by one call. -/
def liste_appel (L : Liste) : OpListe → Liste
  | OpListe.ajouter s => liste_ajouter_en_queue L s
  | OpListe.supprimer s => (liste_supprimer_premiere L s).2
  | OpListe.vider => liste_vider L

/-- The list left by a sequence of calls, made in order. -/
def liste_appels : List OpListe → Liste → Liste
  | [], L => L
  | op :: suite, L => liste_appels suite (liste_appel L op)

/-! ## Sample data -/

/-- A table whose buckets are all empty. -/
def table_vide : HashTable := { table := fun _ => [] }

/-- The string `"A"`. -/
def strA : CStr := [65]

/-- The string `"B"`. -/
def strB : CStr := [66]

/-- The string `"C"`. -/
def strC : CStr := [67]

/-- The rule `IF A THEN B`, built as `tests_inference` builds it. -/
def regle_A_B : Regle :=
  regle_definir_conclusion (regle_ajouter_premisse regle_init strA) strB

/-- The rule `IF B THEN C`. -/
def regle_B_C : Regle :=
  regle_definir_conclusion (regle_ajouter_premisse regle_init strB) strC

/-- The rule base `[IF A THEN B, IF B THEN C]`. -/
def bc_exemple : BaseConnaissances :=
  bc_ajouter_regle_en_queue (bc_ajouter_regle_en_queue bc_init regle_A_B) regle_B_C

/-- The rule base `[IF B THEN C, IF A THEN B]`. -/
def bc_exemple_inverse : BaseConnaissances :=
  bc_ajouter_regle_en_queue (bc_ajouter_regle_en_queue bc_init regle_B_C) regle_A_B

/-- The fact base `[A]`. -/
def bf_exemple : BaseFaits := liste_ajouter_en_queue liste_init strA

/-- The table rebuilt from `bf_exemple`. -/
def ht_exemple : HashTable := inference bf_exemple table_vide

/-- The string `"a"`. -/
def str_a : CStr := [97]

/-- The string `"!*"`, which `hash_function` sends to the bucket of `"A"`. -/
def str_collision : CStr := [33, 42]

/-- The rule base `[IF A THEN B]`, built as `tests_inference` builds it. -/
def bc_test : BaseConnaissances := bc_ajouter_regle_en_queue bc_init regle_A_B

/-- A rule with no premise and the conclusion `A`. -/
def regle_vide_A : Regle := regle_definir_conclusion regle_init strA

/-- The rule base holding only `regle_vide_A`. -/
def bc_vide_A : BaseConnaissances := bc_ajouter_regle_en_queue bc_init regle_vide_A

/-- The rule `IF A AND B THEN C`. -/
def regle_AB_C : Regle :=
  regle_definir_conclusion
    (regle_ajouter_premisse (regle_ajouter_premisse regle_init strA) strB) strC

/-- The rule `IF B AND A THEN C`. -/
def regle_BA_C : Regle :=
  regle_definir_conclusion
    (regle_ajouter_premisse (regle_ajouter_premisse regle_init strB) strA) strC

/-- The table obtained by inserting `"A"` in an empty table. -/
def ht_A : HashTable := hash_table_insert table_vide strA

/-- The table obtained by inserting `"B"` in an empty table. -/
def ht_B : HashTable := hash_table_insert table_vide strB

/-- A rule with no premise whose conclusion is the empty string. -/
def regle_conclusion_vide : Regle := regle_definir_conclusion regle_init []

/-- The rule base holding only `regle_conclusion_vide`. -/
def bc_conclusion_vide : BaseConnaissances :=
  bc_ajouter_regle_en_queue bc_init regle_conclusion_vide

/-- The rule base `[IF A THEN B]` preceded by a rule without conclusion. -/
def bc_sans_conclusion : BaseConnaissances :=
  bc_ajouter_regle_en_queue
    (bc_ajouter_regle_en_queue bc_init (regle_ajouter_premisse regle_init strA)) regle_A_B

/-- The fact list `[A, B]`. -/
def bf_A_B : BaseFaits := liste_ajouter_en_queue bf_exemple strB

/-- Menu session: add the facts `A` and `B`, then the rule `IF A THEN B`. -/
def session_faits_regle : List Commande :=
  [Commande.ajouter_fait (some strA), Commande.ajouter_fait (some strB),
   Commande.ajouter_regle [strA, [], strB]]

/-- The calls of `tests_liste`: append `A`, append `B`, remove `A`, empty. -/
def appels_tests_liste : List OpListe :=
  [OpListe.ajouter strA, OpListe.ajouter strB, OpListe.supprimer strA, OpListe.vider]

/-! ## Lists and hash table -/

theorem contient_rec_node_iff (l : List CStr) (s : CStr) :
    contient_rec_node l s = true ↔ s ∈ l := by
  induction l with
  | nil => simp [contient_rec_node]
  | cons t next ih =>
    by_cases h : t = s
    · simp [contient_rec_node, h]
    · have h' : ¬ s = t := fun e => h e.symm
      simp [contient_rec_node, h, h', ih]

theorem liste_contient_rec_iff (L : Liste) (s : CStr) :
    liste_contient_rec L s = true ↔ s ∈ L.elems :=
  contient_rec_node_iff L.elems s

theorem hash_table_contains_boucle_iff (l : List CStr) (p : CStr) :
    hash_table_contains_boucle l p = true ↔ p ∈ l := by
  induction l with
  | nil => simp [hash_table_contains_boucle]
  | cons t next ih =>
    by_cases h : t = p
    · simp [hash_table_contains_boucle, h]
    · have h' : ¬ p = t := fun e => h e.symm
      simp [hash_table_contains_boucle, h, h', ih]

theorem hash_table_init_boucle_eq (n : Nat) (t : Fin HASH_SIZE → List CStr) (j : Fin HASH_SIZE) :
    hash_table_init_boucle n t j = if j.val < n then [] else t j := by
  induction n with
  | zero => simp [hash_table_init_boucle]
  | succ n ih =>
    simp only [hash_table_init_boucle, ih]
    by_cases h1 : j.val = n
    · simp [h1]
    · by_cases h2 : j.val < n
      · have : j.val < n + 1 := by omega
        simp [h1, h2, this]
      · have : ¬ j.val < n + 1 := by omega
        simp [h1, h2, this]

theorem hash_table_init_table (ht : HashTable) (j : Fin HASH_SIZE) :
    (hash_table_init ht).table j = [] := by
  simp [hash_table_init, hash_table_init_boucle_eq, j.isLt]

theorem hash_table_contains_init (ht : HashTable) (f : CStr) :
    hash_table_contains (hash_table_init ht) f = false := by
  simp [hash_table_contains, hash_table_init_table, hash_table_contains_boucle]

theorem hash_table_contains_insert (ht : HashTable) (p f : CStr) :
    hash_table_contains (hash_table_insert ht p) f = true ↔
      f = p ∨ hash_table_contains ht f = true := by
  simp only [hash_table_contains, hash_table_insert, hash_table_contains_boucle_iff]
  by_cases h : hash_function f = hash_function p
  · simp [h]
  · have hne : f ≠ p := fun e => h (by rw [e])
    simp [h, hne]

theorem hash_table_contains_inference_boucle (l : List CStr) (ht : HashTable) (f : CStr) :
    hash_table_contains (inference_boucle l ht) f = true ↔
      f ∈ l ∨ hash_table_contains ht f = true := by
  induction l generalizing ht with
  | nil => simp [inference_boucle]
  | cons s next ih =>
    simp only [inference_boucle, ih, hash_table_contains_insert, List.mem_cons]
    tauto

theorem hash_table_contains_inference (BF : BaseFaits) (ht : HashTable) (f : CStr) :
    hash_table_contains (inference BF ht) f = true ↔ f ∈ BF.elems := by
  simp [inference, hash_table_contains_inference_boucle, hash_table_contains_init]

theorem toutes_premisses_vraies_boucle_iff (l : List CStr) (BF : BaseFaits) :
    toutes_premisses_vraies_boucle l BF = true ↔ ∀ p ∈ l, p ∈ BF.elems := by
  induction l with
  | nil => simp [toutes_premisses_vraies_boucle]
  | cons s next ih =>
    by_cases h : s ∈ BF.elems
    · have hc : liste_contient_rec BF s = true := (liste_contient_rec_iff BF s).2 h
      simp [toutes_premisses_vraies_boucle, hc, ih, h]
    · have hc : liste_contient_rec BF s = false := by
        cases hb : liste_contient_rec BF s with
        | false => rfl
        | true => exact absurd ((liste_contient_rec_iff BF s).1 hb) h
      simp [toutes_premisses_vraies_boucle, hc, h]

theorem toutes_premisses_vraies_iff (R : Regle) (BF : BaseFaits) :
    toutes_premisses_vraies R BF = true ↔ ∀ p ∈ R.premisses.elems, p ∈ BF.elems :=
  toutes_premisses_vraies_boucle_iff R.premisses.elems BF

/-! ## One rule -/

theorem moteur_inference_regle_stable (R : Regle) (e : Etat)
    (h : regle_applicable R e.BF e.ht = false) : moteur_inference_regle R e = e := by
  unfold regle_applicable at h
  unfold moteur_inference_regle
  cases hc : regle_obtenir_conclusion R with
  | none => rfl
  | some c =>
    rw [hc] at h
    simp only at h
    simp [h]

theorem moteur_inference_regle_tire (R : Regle) (e : Etat)
    (h : regle_applicable R e.BF e.ht = true) :
    ∃ c, regle_obtenir_conclusion R = some c ∧
      (∀ p ∈ R.premisses.elems, p ∈ e.BF.elems) ∧
      hash_table_contains e.ht c = false ∧
      moteur_inference_regle R e =
        { BF := liste_ajouter_en_queue e.BF c
          ht := hash_table_insert e.ht c
          nouveau := true
          sortie := e.sortie ++ [Ligne.deduction c] } := by
  unfold regle_applicable at h
  unfold moteur_inference_regle
  cases hc : regle_obtenir_conclusion R with
  | none => rw [hc] at h; simp at h
  | some c =>
    rw [hc] at h
    simp only at h
    refine ⟨c, rfl, ?_, ?_, ?_⟩
    · have h1 : toutes_premisses_vraies R e.BF = true := by
        simp only [Bool.and_eq_true] at h
        exact h.1
      exact (toutes_premisses_vraies_iff R e.BF).1 h1
    · simp only [Bool.and_eq_true, Bool.not_eq_true'] at h
      exact h.2
    · simp [h]

theorem moteur_inference_regle_cas (R : Regle) (e : Etat) :
    (regle_applicable R e.BF e.ht = false ∧ moteur_inference_regle R e = e) ∨
    (regle_applicable R e.BF e.ht = true ∧
      ∃ c, regle_obtenir_conclusion R = some c ∧
      (∀ p ∈ R.premisses.elems, p ∈ e.BF.elems) ∧
      hash_table_contains e.ht c = false ∧
      moteur_inference_regle R e =
        { BF := liste_ajouter_en_queue e.BF c
          ht := hash_table_insert e.ht c
          nouveau := true
          sortie := e.sortie ++ [Ligne.deduction c] }) := by
  cases h : regle_applicable R e.BF e.ht with
  | false => exact Or.inl ⟨rfl, moteur_inference_regle_stable R e h⟩
  | true => exact Or.inr ⟨rfl, moteur_inference_regle_tire R e h⟩

/-! ## The loops: invariants -/

theorem moteur_inference_for_inv (P : Etat → Prop) (rs : List Regle)
    (hstep : ∀ R ∈ rs, ∀ e, P e → P (moteur_inference_regle R e)) (e : Etat) (he : P e) :
    P (moteur_inference_for rs e) := by
  induction rs generalizing e with
  | nil => exact he
  | cons R next ih =>
    simp only [moteur_inference_for]
    apply ih
    · intro R' hR'
      exact hstep R' (List.mem_cons_of_mem _ hR')
    · exact hstep R (List.mem_cons_self _ _) e he

theorem moteur_inference_while_faux (BC : BaseConnaissances) (fuel : Nat) (e : Etat)
    (h : e.nouveau = false) : moteur_inference_while BC fuel e = some e := by
  cases fuel <;> simp [moteur_inference_while, h]

theorem moteur_inference_while_inv (P : Etat → Prop) (BC : BaseConnaissances)
    (hreset : ∀ e, P e → P { e with nouveau := false })
    (hstep : ∀ R ∈ BC.regles, ∀ e, P e → P (moteur_inference_regle R e)) :
    ∀ (fuel : Nat) (e r : Etat), P e → moteur_inference_while BC fuel e = some r → P r := by
  intro fuel
  induction fuel with
  | zero =>
    intro e r he h
    cases hn : e.nouveau with
    | true => simp [moteur_inference_while, hn] at h
    | false =>
      simp [moteur_inference_while, hn] at h
      rw [← h]; exact he
  | succ fuel ih =>
    intro e r he h
    cases hn : e.nouveau with
    | true =>
      simp only [moteur_inference_while, hn, if_true] at h
      refine ih _ r ?_ h
      exact moteur_inference_for_inv P BC.regles hstep _ (hreset e he)
    | false =>
      simp [moteur_inference_while, hn] at h
      rw [← h]; exact he

/-! ## The loops: the flag `nouveau` -/

theorem moteur_inference_for_stable (rs : List Regle) (e : Etat)
    (h : ∀ R ∈ rs, regle_applicable R e.BF e.ht = false) : moteur_inference_for rs e = e := by
  induction rs with
  | nil => rfl
  | cons R next ih =>
    simp only [moteur_inference_for]
    rw [moteur_inference_regle_stable R e (h R (List.mem_cons_self _ _))]
    exact ih (fun R' hR' => h R' (List.mem_cons_of_mem _ hR'))

theorem moteur_inference_for_nouveau (rs : List Regle) (e : Etat) (h : e.nouveau = true) :
    (moteur_inference_for rs e).nouveau = true := by
  refine moteur_inference_for_inv (fun e => e.nouveau = true) rs ?_ e h
  intro R _ e he
  rcases moteur_inference_regle_cas R e with ⟨_, h1⟩ | ⟨_, c, _, _, _, h1⟩
  · rw [h1]; exact he
  · rw [h1]

theorem moteur_inference_for_sans_nouveau (rs : List Regle) (e : Etat)
    (h : (moteur_inference_for rs e).nouveau = false) :
    moteur_inference_for rs e = e ∧ ∀ R ∈ rs, regle_applicable R e.BF e.ht = false := by
  induction rs generalizing e with
  | nil => exact ⟨rfl, by simp⟩
  | cons R next ih =>
    simp only [moteur_inference_for] at h ⊢
    rcases moteur_inference_regle_cas R e with ⟨ha, h1⟩ | ⟨_, c, _, _, _, h1⟩
    · rw [h1] at h ⊢
      obtain ⟨h2, h3⟩ := ih e h
      refine ⟨h2, ?_⟩
      intro R' hR'
      rcases List.mem_cons.1 hR' with rfl | hm
      · exact ha
      · exact h3 R' hm
    · have := moteur_inference_for_nouveau next (moteur_inference_regle R e) (by rw [h1])
      rw [this] at h
      exact absurd h (by simp)

theorem moteur_inference_while_fin (BC : BaseConnaissances) :
    ∀ (fuel : Nat) (e r : Etat), moteur_inference_while BC fuel e = some r →
      r.nouveau = false ∧
      (e.nouveau = true → ∀ R ∈ BC.regles, regle_applicable R r.BF r.ht = false) := by
  intro fuel
  induction fuel with
  | zero =>
    intro e r h
    cases hn : e.nouveau with
    | true => simp [moteur_inference_while, hn] at h
    | false =>
      simp [moteur_inference_while, hn] at h
      subst h
      exact ⟨hn, by simp⟩
  | succ fuel ih =>
    intro e r h
    cases hn : e.nouveau with
    | true =>
      simp only [moteur_inference_while, hn, if_true] at h
      obtain ⟨h1, h2⟩ := ih _ r h
      refine ⟨h1, fun _ => ?_⟩
      cases hp : (moteur_inference_passe BC e).nouveau with
      | true => exact h2 hp
      | false =>
        rw [moteur_inference_while_faux BC fuel _ hp] at h
        injection h with h
        subst h
        have := moteur_inference_for_sans_nouveau BC.regles { e with nouveau := false } hp
        unfold moteur_inference_passe
        rw [this.1]
        exact this.2
    | false =>
      simp [moteur_inference_while, hn] at h
      subst h
      exact ⟨hn, by simp⟩

theorem moteur_inference_while_mono (BC : BaseConnaissances) :
    ∀ (fuel k : Nat) (e r : Etat), moteur_inference_while BC fuel e = some r →
      moteur_inference_while BC (fuel + k) e = some r := by
  intro fuel
  induction fuel with
  | zero =>
    intro k e r h
    cases hn : e.nouveau with
    | true => simp [moteur_inference_while, hn] at h
    | false =>
      simp [moteur_inference_while, hn] at h
      subst h
      exact moteur_inference_while_faux BC _ _ hn
  | succ fuel ih =>
    intro k e r h
    cases hn : e.nouveau with
    | true =>
      simp only [moteur_inference_while, hn, if_true] at h
      have : fuel + 1 + k = (fuel + k) + 1 := by omega
      rw [this]
      simp only [moteur_inference_while, hn, if_true]
      exact ih k _ r h
    | false =>
      simp [moteur_inference_while, hn] at h
      subst h
      exact moteur_inference_while_faux BC _ _ hn

/-! ## Termination measure -/

theorem conclusions_absentes_insert (BC : BaseConnaissances) (ht : HashTable) (c : CStr)
    (hc : c ∈ conclusions BC) (hn : hash_table_contains ht c = false) :
    (conclusions_absentes BC (hash_table_insert ht c)).length <
      (conclusions_absentes BC ht).length := by
  have hfil : conclusions_absentes BC (hash_table_insert ht c) =
      (conclusions_absentes BC ht).filter (fun f => decide (f ≠ c)) := by
    unfold conclusions_absentes
    rw [List.filter_filter]
    apply List.filter_congr
    intro f _
    cases h1 : hash_table_contains (hash_table_insert ht c) f with
    | true =>
      rcases (hash_table_contains_insert ht c f).1 h1 with h2 | h2
      · simp [h2]
      · simp [h2]
    | false =>
      have h2 : ¬ (f = c ∨ hash_table_contains ht f = true) := by
        intro h
        have := (hash_table_contains_insert ht c f).2 h
        rw [h1] at this
        exact absurd this (by simp)
      have h3 : f ≠ c := fun h => h2 (Or.inl h)
      have h4 : hash_table_contains ht f = false := by
        cases h5 : hash_table_contains ht f with
        | false => rfl
        | true => exact absurd (Or.inr h5) h2
      simp [h3, h4]
  rw [hfil]
  apply List.length_filter_lt_length_iff_exists.2
  refine ⟨c, ?_, by simp⟩
  unfold conclusions_absentes
  exact List.mem_filter.2 ⟨hc, by simp [hn]⟩

theorem mem_conclusions (BC : BaseConnaissances) (R : Regle) (c : CStr)
    (hR : R ∈ BC.regles) (hc : regle_obtenir_conclusion R = some c) : c ∈ conclusions BC := by
  unfold conclusions
  rw [List.mem_dedup, List.mem_filterMap]
  exact ⟨R, hR, hc⟩

theorem conclusions_length_le (BC : BaseConnaissances) :
    (conclusions BC).length ≤ BC.regles.length := by
  unfold conclusions
  exact le_trans (List.dedup_sublist _).length_le (List.length_filterMap_le _ _)

theorem conclusions_absentes_length_le (BC : BaseConnaissances) (ht : HashTable) :
    (conclusions_absentes BC ht).length ≤ BC.regles.length := by
  unfold conclusions_absentes
  exact le_trans (List.length_filter_le _ _) (conclusions_length_le BC)

theorem moteur_inference_for_mesure (BC : BaseConnaissances) (rs : List Regle)
    (hrs : ∀ R ∈ rs, R ∈ BC.regles) (e : Etat) :
    (conclusions_absentes BC (moteur_inference_for rs e).ht).length ≤
        (conclusions_absentes BC e.ht).length ∧
      (e.nouveau = false → (moteur_inference_for rs e).nouveau = true →
        (conclusions_absentes BC (moteur_inference_for rs e).ht).length <
          (conclusions_absentes BC e.ht).length) := by
  induction rs generalizing e with
  | nil =>
    refine ⟨le_refl _, ?_⟩
    intro h1 h2
    simp only [moteur_inference_for] at h2
    rw [h1] at h2
    exact absurd h2 (by simp)
  | cons R next ih =>
    have hnext : ∀ R' ∈ next, R' ∈ BC.regles := fun R' h => hrs R' (List.mem_cons_of_mem _ h)
    simp only [moteur_inference_for]
    rcases moteur_inference_regle_cas R e with ⟨_, h1⟩ | ⟨_, c, hc, _, hn, h1⟩
    · rw [h1]
      exact ih hnext e
    · have hlt := conclusions_absentes_insert BC e.ht c
        (mem_conclusions BC R c (hrs R (List.mem_cons_self _ _)) hc) hn
      have hle := (ih hnext (moteur_inference_regle R e)).1
      rw [h1] at hle ⊢
      simp only at hle
      exact ⟨by omega, fun _ _ => by omega⟩

theorem moteur_inference_while_termine (BC : BaseConnaissances) :
    ∀ (fuel : Nat) (e : Etat),
      (e.nouveau = true → (conclusions_absentes BC e.ht).length < fuel) →
      ∃ r, moteur_inference_while BC fuel e = some r := by
  intro fuel
  induction fuel with
  | zero =>
    intro e h
    cases hn : e.nouveau with
    | true => exact absurd (h hn) (by omega)
    | false => exact ⟨e, moteur_inference_while_faux BC 0 e hn⟩
  | succ fuel ih =>
    intro e h
    cases hn : e.nouveau with
    | true =>
      simp only [moteur_inference_while, hn, if_true]
      apply ih
      intro hp
      have hm := (moteur_inference_for_mesure BC BC.regles (fun _ h => h)
        { e with nouveau := false }).2 rfl hp
      have := h hn
      unfold moteur_inference_passe
      simp only at hm
      omega
    | false => exact ⟨e, moteur_inference_while_faux BC _ e hn⟩

/-! ## The whole run -/

theorem moteur_inference_some (fuel : Nat) (BC : BaseConnaissances) (BF : BaseFaits)
    (ht : HashTable) (r : Etat) (h : moteur_inference fuel BC BF ht = some r) :
    ∃ e, moteur_inference_while BC fuel { BF := BF, ht := ht, nouveau := true, sortie := [] }
        = some e ∧ r = { e with sortie := e.sortie ++ [Ligne.terminee] } := by
  unfold moteur_inference at h
  cases hw : moteur_inference_while BC fuel { BF := BF, ht := ht, nouveau := true, sortie := [] } with
  | none => rw [hw] at h; simp at h
  | some e =>
    rw [hw] at h
    simp only [Option.some.injEq] at h
    exact ⟨e, rfl, h.symm⟩

theorem moteur_inference_termine (BC : BaseConnaissances) (BF : BaseFaits) (ht : HashTable) :
    ∃ r, ∀ k, moteur_inference ((conclusions_absentes BC ht).length + 1 + k) BC BF ht = some r := by
  obtain ⟨e, he⟩ := moteur_inference_while_termine BC ((conclusions_absentes BC ht).length + 1)
    { BF := BF, ht := ht, nouveau := true, sortie := [] } (fun _ => Nat.lt_succ_self _)
  refine ⟨{ e with sortie := e.sortie ++ [Ligne.terminee] }, fun k => ?_⟩
  unfold moteur_inference
  rw [moteur_inference_while_mono BC _ k _ e he]

theorem moteur_inference_retourne (BC : BaseConnaissances) (BF : BaseFaits) (ht : HashTable) :
    ∃ r, moteur_inference (BC.regles.length + 1) BC BF ht = some r := by
  obtain ⟨r, hr⟩ := moteur_inference_termine BC BF ht
  refine ⟨r, ?_⟩
  have hle := conclusions_absentes_length_le BC ht
  have := hr (BC.regles.length - (conclusions_absentes BC ht).length)
  have heq : (conclusions_absentes BC ht).length + 1 +
      (BC.regles.length - (conclusions_absentes BC ht).length) = BC.regles.length + 1 := by omega
  rw [heq] at this
  exact this

theorem moteur_inference_inv (P : Etat → Prop) (BC : BaseConnaissances)
    (hreset : ∀ e, P e → P { e with nouveau := false })
    (hstep : ∀ R ∈ BC.regles, ∀ e, P e → P (moteur_inference_regle R e))
    (hfin : ∀ e, P e → P { e with sortie := e.sortie ++ [Ligne.terminee] })
    (fuel : Nat) (BF : BaseFaits) (ht : HashTable) (r : Etat)
    (h0 : P { BF := BF, ht := ht, nouveau := true, sortie := [] })
    (h : moteur_inference fuel BC BF ht = some r) : P r := by
  obtain ⟨e, he, rfl⟩ := moteur_inference_some fuel BC BF ht r h
  exact hfin e (moteur_inference_while_inv P BC hreset hstep fuel _ e h0 he)

theorem moteur_inference_fin (fuel : Nat) (BC : BaseConnaissances) (BF : BaseFaits)
    (ht : HashTable) (r : Etat) (h : moteur_inference fuel BC BF ht = some r) :
    r.nouveau = false ∧ ∀ R ∈ BC.regles, regle_applicable R r.BF r.ht = false := by
  obtain ⟨e, he, rfl⟩ := moteur_inference_some fuel BC BF ht r h
  obtain ⟨h1, h2⟩ := moteur_inference_while_fin BC fuel _ e he
  exact ⟨h1, h2 rfl⟩

/-! ## Invariants of the run -/

theorem Miroir_regle (R : Regle) (e : Etat) (h : Miroir e.BF e.ht) :
    Miroir (moteur_inference_regle R e).BF (moteur_inference_regle R e).ht := by
  rcases moteur_inference_regle_cas R e with ⟨_, h1⟩ | ⟨_, c, _, _, _, h1⟩
  · rw [h1]; exact h
  · rw [h1]
    intro f
    simp only [hash_table_contains_insert, liste_ajouter_en_queue, List.mem_append,
      List.mem_singleton, h f]
    tauto

theorem moteur_inference_miroir (fuel : Nat) (BC : BaseConnaissances) (BF : BaseFaits)
    (ht : HashTable) (r : Etat) (hm : Miroir BF ht)
    (h : moteur_inference fuel BC BF ht = some r) : Miroir r.BF r.ht :=
  moteur_inference_inv (fun e => Miroir e.BF e.ht) BC (fun _ he => he)
    (fun R _ e he => Miroir_regle R e he) (fun _ he => he) fuel BF ht r hm h

theorem moteur_inference_clos (fuel : Nat) (BC : BaseConnaissances) (BF : BaseFaits)
    (ht : HashTable) (r : Etat) (hm : Miroir BF ht)
    (h : moteur_inference fuel BC BF ht = some r) : Clos BC (fun f => f ∈ r.BF.elems) := by
  intro R hR c hc hp
  have hmr := moteur_inference_miroir fuel BC BF ht r hm h
  have hna := (moteur_inference_fin fuel BC BF ht r h).2 R hR
  unfold regle_applicable at hna
  rw [hc] at hna
  have htp : toutes_premisses_vraies R r.BF = true := (toutes_premisses_vraies_iff R r.BF).2 hp
  simp only [htp, Bool.true_and, Bool.not_eq_false'] at hna
  exact (hmr c).1 hna

theorem moteur_inference_croissant (fuel : Nat) (BC : BaseConnaissances) (BF : BaseFaits)
    (ht : HashTable) (r : Etat) (h : moteur_inference fuel BC BF ht = some r) :
    ∀ f ∈ BF.elems, f ∈ r.BF.elems := by
  refine moteur_inference_inv (fun e => ∀ f ∈ BF.elems, f ∈ e.BF.elems) BC (fun _ he => he)
    ?_ (fun _ he => he) fuel BF ht r (fun _ hf => hf) h
  intro R _ e he f hf
  rcases moteur_inference_regle_cas R e with ⟨_, h1⟩ | ⟨_, c, _, _, _, h1⟩
  · rw [h1]; exact he f hf
  · rw [h1]
    simp only [liste_ajouter_en_queue, List.mem_append]
    exact Or.inl (he f hf)

theorem moteur_inference_minimal (fuel : Nat) (BC : BaseConnaissances) (BF : BaseFaits)
    (ht : HashTable) (r : Etat) (h : moteur_inference fuel BC BF ht = some r)
    (S : CStr → Prop) (h0 : ∀ f ∈ BF.elems, S f) (hS : Clos BC S) :
    ∀ f ∈ r.BF.elems, S f := by
  refine moteur_inference_inv (fun e => ∀ f ∈ e.BF.elems, S f) BC (fun _ he => he)
    ?_ (fun _ he => he) fuel BF ht r h0 h
  intro R hR e he f hf
  rcases moteur_inference_regle_cas R e with ⟨_, h1⟩ | ⟨_, c, hc, hp, _, h1⟩
  · rw [h1] at hf; exact he f hf
  · rw [h1] at hf
    simp only [liste_ajouter_en_queue, List.mem_append, List.mem_singleton] at hf
    rcases hf with hf | rfl
    · exact he f hf
    · exact hS R hR f hc (fun p hpm => he p (hp p hpm))

theorem moteur_inference_trace (fuel : Nat) (BC : BaseConnaissances) (BF : BaseFaits)
    (ht : HashTable) (r : Etat) (h : moteur_inference fuel BC BF ht = some r) :
    r.BF.elems = BF.elems ++ deductions r.sortie := by
  have hd : ∀ (l : List Ligne) (x : Ligne), deductions (l ++ [x]) = deductions l ++ deductions [x] := by
    intro l x
    induction l with
    | nil => simp [deductions]
    | cons y l ih =>
      cases y with
      | deduction c => simp [deductions, ih]
      | terminee => simp [deductions, ih]
  refine moteur_inference_inv (fun e => e.BF.elems = BF.elems ++ deductions e.sortie) BC
    (fun _ he => he) ?_ ?_ fuel BF ht r (by simp [deductions]) h
  · intro R _ e he
    rcases moteur_inference_regle_cas R e with ⟨_, h1⟩ | ⟨_, c, _, _, _, h1⟩
    · rw [h1]; exact he
    · rw [h1]
      simp only [liste_ajouter_en_queue, hd, he, deductions, List.append_assoc]
  · intro e he
    simp only [hd, he, deductions, List.append_nil]

theorem moteur_inference_nodup (fuel : Nat) (BC : BaseConnaissances) (BF : BaseFaits)
    (ht : HashTable) (r : Etat) (hn : BF.elems.Nodup) (hm : Miroir BF ht)
    (h : moteur_inference fuel BC BF ht = some r) : r.BF.elems.Nodup := by
  have := moteur_inference_inv (fun e => e.BF.elems.Nodup ∧ Miroir e.BF e.ht) BC
    (fun _ he => he) ?_ (fun _ he => he) fuel BF ht r ⟨hn, hm⟩ h
  · exact this.1
  · intro R _ e he
    refine ⟨?_, Miroir_regle R e he.2⟩
    rcases moteur_inference_regle_cas R e with ⟨_, h1⟩ | ⟨_, c, _, _, hc, h1⟩
    · rw [h1]; exact he.1
    · rw [h1]
      simp only [liste_ajouter_en_queue]
      have hnot : c ∉ e.BF.elems := by
        intro hin
        have := (he.2 c).2 hin
        rw [hc] at this
        exact absurd this (by simp)
      rw [List.nodup_append]
      refine ⟨he.1, List.nodup_singleton c, ?_⟩
      intro a ha hb
      rw [List.mem_singleton] at hb
      subst hb
      exact hnot ha

theorem Miroir_exemple : Miroir bf_exemple ht_exemple :=
  fun f => hash_table_contains_inference bf_exemple table_vide f

theorem moteur_inference_passe_stable (BC : BaseConnaissances) (e : Etat)
    (hn : e.nouveau = false) (h : ∀ R ∈ BC.regles, regle_applicable R e.BF e.ht = false) :
    moteur_inference_passe BC e = e := by
  unfold moteur_inference_passe
  have he : ({ e with nouveau := false } : Etat) = e := by
    cases e
    simp only at hn
    subst hn
    rfl
  rw [he]
  exact moteur_inference_for_stable BC.regles e h

theorem moteur_inference_while_iterate (BC : BaseConnaissances) :
    ∀ (fuel : Nat) (e r : Etat), moteur_inference_while BC fuel e = some r →
      e.nouveau = true → (moteur_inference_passe BC)^[fuel] e = r := by
  intro fuel
  induction fuel with
  | zero =>
    intro e r h hn
    simp [moteur_inference_while, hn] at h
  | succ fuel ih =>
    intro e r h hn
    simp only [moteur_inference_while, hn, if_true] at h
    rw [Function.iterate_succ_apply]
    cases hp : (moteur_inference_passe BC e).nouveau with
    | true => exact ih _ r h hp
    | false =>
      have hfin := moteur_inference_while_fin BC (fuel + 1) e r
        (by simp only [moteur_inference_while, hn, if_true]; exact h)
      rw [moteur_inference_while_faux BC fuel _ hp] at h
      injection h with h
      subst h
      exact Function.iterate_fixed (moteur_inference_passe_stable BC _ hp (hfin.2 hn)) fuel

/-! ## Claims C1 to C10 -/

/-- C1, rebuild consistency: after `inference BF ht`, whatever `ht` held, the
table contains a string exactly when it occurs in `BF`; a string that was in
the table and is not in `BF` is gone, and an empty fact list gives a table that
contains nothing. -/
theorem inference_reconstruit (BF : BaseFaits) (ht : HashTable) :
    (∀ f : CStr, hash_table_contains (inference BF ht) f = true ↔ f ∈ BF.elems) ∧
    (∀ g : CStr, hash_table_contains ht g = true → g ∉ BF.elems →
      hash_table_contains (inference BF ht) g = false) ∧
    (∀ f : CStr, hash_table_contains (inference liste_init ht) f = false) := by
  refine ⟨hash_table_contains_inference BF ht, ?_, ?_⟩
  · intro g _ hg
    cases h : hash_table_contains (inference BF ht) g with
    | false => rfl
    | true => exact absurd ((hash_table_contains_inference BF ht g).1 h) hg
  · intro f
    cases h : hash_table_contains (inference liste_init ht) f with
    | false => rfl
    | true =>
      have := (hash_table_contains_inference liste_init ht f).1 h
      simp [liste_init] at this

/-- C2, fixpoint reached: when the table mirrors the fact base, the run returns
(within `N + 1` passes for `N` rules) a state in which every rule that has a
conclusion and whose premises are all facts has its conclusion among the
facts, and one more pass leaves that state as it is. -/
theorem moteur_inference_point_fixe (BC : BaseConnaissances) (BF : BaseFaits) (ht : HashTable)
    (hm : Miroir BF ht) :
    ∃ r, moteur_inference (BC.regles.length + 1) BC BF ht = some r ∧
      (∀ R ∈ BC.regles, ∀ c, regle_obtenir_conclusion R = some c →
        (∀ p ∈ R.premisses.elems, p ∈ r.BF.elems) → c ∈ r.BF.elems) ∧
      moteur_inference_passe BC r = r := by
  obtain ⟨r, hr⟩ := moteur_inference_retourne BC BF ht
  refine ⟨r, hr, moteur_inference_clos _ BC BF ht r hm hr, ?_⟩
  have hfin := moteur_inference_fin _ BC BF ht r hr
  exact moteur_inference_passe_stable BC r hfin.1 hfin.2

/-- Witness of C2 on the rule base `[IF A THEN B, IF B THEN C]`, the facts `[A]`
and the table rebuilt from them. -/
theorem moteur_inference_point_fixe_temoin :
    Miroir bf_exemple ht_exemple ∧
    ∃ r, moteur_inference (bc_exemple.regles.length + 1) bc_exemple bf_exemple ht_exemple = some r ∧
      (∀ R ∈ bc_exemple.regles, ∀ c, regle_obtenir_conclusion R = some c →
        (∀ p ∈ R.premisses.elems, p ∈ r.BF.elems) → c ∈ r.BF.elems) ∧
      moteur_inference_passe bc_exemple r = r :=
  ⟨Miroir_exemple, moteur_inference_point_fixe bc_exemple bf_exemple ht_exemple Miroir_exemple⟩

/-- C3, forward-chaining closure: when the table mirrors the fact base, the
facts at the end of the run form the least set that contains the initial facts
and is closed under the rules having a conclusion: they contain the initial
facts, they are closed, and they are included in every closed set that
contains the initial facts. -/
theorem moteur_inference_cloture (BC : BaseConnaissances) (BF : BaseFaits) (ht : HashTable)
    (hm : Miroir BF ht) :
    ∃ r, moteur_inference (BC.regles.length + 1) BC BF ht = some r ∧
      (∀ f ∈ BF.elems, f ∈ r.BF.elems) ∧
      Clos BC (fun f => f ∈ r.BF.elems) ∧
      ∀ S : CStr → Prop, (∀ f ∈ BF.elems, S f) → Clos BC S → ∀ f ∈ r.BF.elems, S f := by
  obtain ⟨r, hr⟩ := moteur_inference_retourne BC BF ht
  exact ⟨r, hr, moteur_inference_croissant _ BC BF ht r hr,
    moteur_inference_clos _ BC BF ht r hm hr,
    fun S h0 hS => moteur_inference_minimal _ BC BF ht r hr S h0 hS⟩

/-- Witness of C3 on the sample rule base, facts and table. -/
theorem moteur_inference_cloture_temoin :
    Miroir bf_exemple ht_exemple ∧
    ∃ r, moteur_inference (bc_exemple.regles.length + 1) bc_exemple bf_exemple ht_exemple = some r ∧
      (∀ f ∈ bf_exemple.elems, f ∈ r.BF.elems) ∧
      Clos bc_exemple (fun f => f ∈ r.BF.elems) ∧
      ∀ S : CStr → Prop, (∀ f ∈ bf_exemple.elems, S f) → Clos bc_exemple S →
        ∀ f ∈ r.BF.elems, S f :=
  ⟨Miroir_exemple, moteur_inference_cloture bc_exemple bf_exemple ht_exemple Miroir_exemple⟩

/-- C4, termination: for every rule base, fact base and table, mirroring or
not, the run returns, and returns the same state, as soon as the number of
passes allowed exceeds the number of distinct rule conclusions that the table
does not contain. The reason: a rule that fires has a conclusion, taken from
the conclusions of the rule base, that the table did not contain and contains
afterwards, so that the number of conclusions absent from the table drops. -/
theorem moteur_inference_terminaison (BC : BaseConnaissances) (BF : BaseFaits) (ht : HashTable) :
    (∃ r, ∀ k,
      moteur_inference ((conclusions_absentes BC ht).length + 1 + k) BC BF ht = some r) ∧
    (∀ R ∈ BC.regles, ∀ e : Etat, moteur_inference_regle R e ≠ e →
      ∃ c, regle_obtenir_conclusion R = some c ∧ c ∈ conclusions BC ∧
        hash_table_contains e.ht c = false ∧
        hash_table_contains (moteur_inference_regle R e).ht c = true ∧
        (conclusions_absentes BC (moteur_inference_regle R e).ht).length <
          (conclusions_absentes BC e.ht).length) := by
  refine ⟨moteur_inference_termine BC BF ht, ?_⟩
  intro R hR e hne
  rcases moteur_inference_regle_cas R e with ⟨_, h1⟩ | ⟨_, c, hc, _, hn, h1⟩
  · exact absurd h1 hne
  · have hmem := mem_conclusions BC R c hR hc
    refine ⟨c, hc, hmem, hn, ?_, ?_⟩
    · rw [h1]
      exact (hash_table_contains_insert e.ht c c).2 (Or.inl rfl)
    · rw [h1]
      exact conclusions_absentes_insert BC e.ht c hmem hn

/-- C5, termination bound: with `N` rules, whatever the fact base and the
table, the run returns within `N + 1` passes of its `while` loop, and the
state obtained by iterating the pass `N + 1` times from the start state has
`nouveau = false`: its last pass added no fact. -/
theorem moteur_inference_borne_passes (BC : BaseConnaissances) (BF : BaseFaits)
    (ht : HashTable) :
    (∃ r, moteur_inference (BC.regles.length + 1) BC BF ht = some r) ∧
    ((moteur_inference_passe BC)^[BC.regles.length + 1]
      { BF := BF, ht := ht, nouveau := true, sortie := [] }).nouveau = false := by
  obtain ⟨r, hr⟩ := moteur_inference_retourne BC BF ht
  refine ⟨⟨r, hr⟩, ?_⟩
  obtain ⟨e, he, _⟩ := moteur_inference_some _ BC BF ht r hr
  rw [moteur_inference_while_iterate BC _ _ e he rfl]
  exact (moteur_inference_while_fin BC _ _ e he).1

/-- C6, idempotent convergence: for every rule base, fact base and table, the
run returns a state from which a second run, however many passes it is
allowed, makes one pass, appends no fact, inserts nothing in the table and
prints only the closing line. -/
theorem moteur_inference_idempotent (BC : BaseConnaissances) (BF : BaseFaits)
    (ht : HashTable) :
    ∃ r, moteur_inference (BC.regles.length + 1) BC BF ht = some r ∧
      ∀ k, moteur_inference (k + 1) BC r.BF r.ht =
        some { BF := r.BF, ht := r.ht, nouveau := false, sortie := [Ligne.terminee] } := by
  obtain ⟨r, hr⟩ := moteur_inference_retourne BC BF ht
  refine ⟨r, hr, fun k => ?_⟩
  have hfin := moteur_inference_fin _ BC BF ht r hr
  have hp : moteur_inference_passe BC { BF := r.BF, ht := r.ht, nouveau := true, sortie := [] }
      = { BF := r.BF, ht := r.ht, nouveau := false, sortie := [] } := by
    unfold moteur_inference_passe
    exact moteur_inference_for_stable BC.regles _ hfin.2
  unfold moteur_inference
  simp only [moteur_inference_while, if_true, hp]
  rw [moteur_inference_while_faux BC k _ rfl]
  rfl

/-- C7, monotonicity: for every rule base, fact base and table, every fact
present before the run is present after it and the number of distinct facts
does not decrease; the same holds across each execution of the body of the
rule loop. -/
theorem moteur_inference_monotone (BC : BaseConnaissances) (BF : BaseFaits) (ht : HashTable) :
    (∃ r, moteur_inference (BC.regles.length + 1) BC BF ht = some r ∧
      (∀ f ∈ BF.elems, f ∈ r.BF.elems) ∧
      BF.elems.dedup.length ≤ r.BF.elems.dedup.length) ∧
    (∀ (R : Regle) (e : Etat), (∀ f ∈ e.BF.elems, f ∈ (moteur_inference_regle R e).BF.elems) ∧
      e.BF.elems.dedup.length ≤ (moteur_inference_regle R e).BF.elems.dedup.length) := by
  have hcard : ∀ l l' : List CStr, (∀ f ∈ l, f ∈ l') → l.dedup.length ≤ l'.dedup.length := by
    intro l l' hsub
    rw [← List.card_toFinset, ← List.card_toFinset]
    apply Finset.card_le_card
    intro f hf
    rw [List.mem_toFinset] at hf ⊢
    exact hsub f hf
  constructor
  · obtain ⟨r, hr⟩ := moteur_inference_retourne BC BF ht
    have hsub := moteur_inference_croissant _ BC BF ht r hr
    exact ⟨r, hr, hsub, hcard _ _ hsub⟩
  · intro R e
    have hsub : ∀ f ∈ e.BF.elems, f ∈ (moteur_inference_regle R e).BF.elems := by
      intro f hf
      rcases moteur_inference_regle_cas R e with ⟨_, h1⟩ | ⟨_, c, _, _, _, h1⟩
      · rw [h1]; exact hf
      · rw [h1]
        simp only [liste_ajouter_en_queue, List.mem_append]
        exact Or.inl hf
    exact ⟨hsub, hcard _ _ hsub⟩

/-- C8, no duplicate insertion: from a duplicate-free fact base mirrored by the
table, the run ends with the initial facts followed by the announced
deductions, this list has no duplicate (so no announced string was a fact when
it was appended), and a rule whose conclusion is a fact of a mirrored state
leaves the state, output included, as it is. -/
theorem moteur_inference_sans_doublon (BC : BaseConnaissances) (BF : BaseFaits)
    (ht : HashTable) (hn : BF.elems.Nodup) (hm : Miroir BF ht) :
    (∃ r, moteur_inference (BC.regles.length + 1) BC BF ht = some r ∧
      r.BF.elems = BF.elems ++ deductions r.sortie ∧ r.BF.elems.Nodup) ∧
    (∀ (R : Regle) (e : Etat) (c : CStr), Miroir e.BF e.ht →
      regle_obtenir_conclusion R = some c → c ∈ e.BF.elems →
      moteur_inference_regle R e = e) := by
  constructor
  · obtain ⟨r, hr⟩ := moteur_inference_retourne BC BF ht
    exact ⟨r, hr, moteur_inference_trace _ BC BF ht r hr,
      moteur_inference_nodup _ BC BF ht r hn hm hr⟩
  · intro R e c hme hc hin
    apply moteur_inference_regle_stable
    unfold regle_applicable
    rw [hc]
    simp [(hme c).2 hin]

/-- Witness of C8 on the sample rule base, facts and table. -/
theorem moteur_inference_sans_doublon_temoin :
    bf_exemple.elems.Nodup ∧ Miroir bf_exemple ht_exemple ∧
    ((∃ r, moteur_inference (bc_exemple.regles.length + 1) bc_exemple bf_exemple ht_exemple
        = some r ∧
      r.BF.elems = bf_exemple.elems ++ deductions r.sortie ∧ r.BF.elems.Nodup) ∧
    (∀ (R : Regle) (e : Etat) (c : CStr), Miroir e.BF e.ht →
      regle_obtenir_conclusion R = some c → c ∈ e.BF.elems →
      moteur_inference_regle R e = e)) :=
  ⟨by decide, Miroir_exemple,
    moteur_inference_sans_doublon bc_exemple bf_exemple ht_exemple (by decide) Miroir_exemple⟩

/-- C9, index/fact invariant: if the table mirrors the fact base before the
run, it mirrors it in the state the run returns; and the body of the rule loop
keeps the invariant, so that it holds after every firing inside the run. -/
theorem moteur_inference_preserve_miroir (BC : BaseConnaissances) (BF : BaseFaits)
    (ht : HashTable) (hm : Miroir BF ht) :
    (∃ r, moteur_inference (BC.regles.length + 1) BC BF ht = some r ∧ Miroir r.BF r.ht) ∧
    (∀ (R : Regle) (e : Etat), Miroir e.BF e.ht →
      Miroir (moteur_inference_regle R e).BF (moteur_inference_regle R e).ht) := by
  constructor
  · obtain ⟨r, hr⟩ := moteur_inference_retourne BC BF ht
    exact ⟨r, hr, moteur_inference_miroir _ BC BF ht r hm hr⟩
  · exact fun R e he => Miroir_regle R e he

/-- Witness of C9 on the sample rule base, facts and table. -/
theorem moteur_inference_preserve_miroir_temoin :
    Miroir bf_exemple ht_exemple ∧
    ((∃ r, moteur_inference (bc_exemple.regles.length + 1) bc_exemple bf_exemple ht_exemple
        = some r ∧ Miroir r.BF r.ht) ∧
    (∀ (R : Regle) (e : Etat), Miroir e.BF e.ht →
      Miroir (moteur_inference_regle R e).BF (moteur_inference_regle R e).ht)) :=
  ⟨Miroir_exemple,
    moteur_inference_preserve_miroir bc_exemple bf_exemple ht_exemple Miroir_exemple⟩

/-- C10, rule-order independence: when the table mirrors the fact base, the
runs on a rule base and on any permutation of its rules both return, with the
same set of facts. -/
theorem moteur_inference_ordre_regles (BC BC' : BaseConnaissances) (BF : BaseFaits)
    (ht : HashTable) (hp : BC.regles.Perm BC'.regles) (hm : Miroir BF ht) :
    ∃ r r', moteur_inference (BC.regles.length + 1) BC BF ht = some r ∧
      moteur_inference (BC'.regles.length + 1) BC' BF ht = some r' ∧
      ∀ f : CStr, f ∈ r.BF.elems ↔ f ∈ r'.BF.elems := by
  obtain ⟨r, hr⟩ := moteur_inference_retourne BC BF ht
  obtain ⟨r', hr'⟩ := moteur_inference_retourne BC' BF ht
  have hclos : ∀ S : CStr → Prop, Clos BC S ↔ Clos BC' S := by
    intro S
    constructor
    · intro h R hR
      exact h R (hp.mem_iff.2 hR)
    · intro h R hR
      exact h R (hp.mem_iff.1 hR)
  refine ⟨r, r', hr, hr', fun f => ⟨fun hf => ?_, fun hf => ?_⟩⟩
  · exact moteur_inference_minimal _ BC BF ht r hr (fun f => f ∈ r'.BF.elems)
      (moteur_inference_croissant _ BC' BF ht r' hr')
      ((hclos _).2 (moteur_inference_clos _ BC' BF ht r' hm hr')) f hf
  · exact moteur_inference_minimal _ BC' BF ht r' hr' (fun f => f ∈ r.BF.elems)
      (moteur_inference_croissant _ BC BF ht r hr)
      ((hclos _).1 (moteur_inference_clos _ BC BF ht r hm hr)) f hf

/-- Witness of C10 on `[IF A THEN B, IF B THEN C]` and `[IF B THEN C, IF A THEN B]`. -/
theorem moteur_inference_ordre_regles_temoin :
    bc_exemple.regles.Perm bc_exemple_inverse.regles ∧ Miroir bf_exemple ht_exemple ∧
    ∃ r r', moteur_inference (bc_exemple.regles.length + 1) bc_exemple bf_exemple ht_exemple
        = some r ∧
      moteur_inference (bc_exemple_inverse.regles.length + 1) bc_exemple_inverse bf_exemple
        ht_exemple = some r' ∧
      ∀ f : CStr, f ∈ r.BF.elems ↔ f ∈ r'.BF.elems :=
  ⟨List.Perm.swap _ _ [], Miroir_exemple,
    moteur_inference_ordre_regles bc_exemple bc_exemple_inverse bf_exemple ht_exemple
      (List.Perm.swap _ _ []) Miroir_exemple⟩

/-! ## Further lemmas on the table -/

theorem hash_table_clear_boucle_eq (n : Nat) (t : Fin HASH_SIZE → List CStr) (j : Fin HASH_SIZE) :
    hash_table_clear_boucle n t j = if j.val < n then [] else t j := by
  induction n with
  | zero => simp [hash_table_clear_boucle]
  | succ n ih =>
    simp only [hash_table_clear_boucle, ih]
    by_cases h1 : j.val = n
    · simp [h1]
    · by_cases h2 : j.val < n
      · have : j.val < n + 1 := by omega
        simp [h1, h2, this]
      · have : ¬ j.val < n + 1 := by omega
        simp [h1, h2, this]

theorem hash_table_clear_table (ht : HashTable) (j : Fin HASH_SIZE) :
    (hash_table_clear ht).table j = [] := by
  simp [hash_table_clear, hash_table_clear_boucle_eq, j.isLt]

theorem hash_table_contains_vide (ht : HashTable) (hv : ∀ i, ht.table i = []) (f : CStr) :
    hash_table_contains ht f = false := by
  simp [hash_table_contains, hv, hash_table_contains_boucle]

theorem hash_table_contains_insert_autre (ht : HashTable) (f g : CStr) (h : g ≠ f) :
    hash_table_contains (hash_table_insert ht f) g = hash_table_contains ht g := by
  cases h1 : hash_table_contains ht g with
  | true => exact (hash_table_contains_insert ht f g).2 (Or.inr h1)
  | false =>
    cases h2 : hash_table_contains (hash_table_insert ht f) g with
    | false => rfl
    | true =>
      rcases (hash_table_contains_insert ht f g).1 h2 with h3 | h3
      · exact absurd h3 h
      · rw [h1] at h3
        exact absurd h3 (by simp)

theorem toutes_premisses_vraies_boucle_perm (l l' : List CStr) (BF : BaseFaits)
    (hp : l.Perm l') :
    toutes_premisses_vraies_boucle l BF = toutes_premisses_vraies_boucle l' BF := by
  have h : toutes_premisses_vraies_boucle l BF = true ↔
      toutes_premisses_vraies_boucle l' BF = true := by
    rw [toutes_premisses_vraies_boucle_iff, toutes_premisses_vraies_boucle_iff]
    constructor
    · intro h p hp'
      exact h p (hp.mem_iff.2 hp')
    · intro h p hp'
      exact h p (hp.mem_iff.1 hp')
  cases h1 : toutes_premisses_vraies_boucle l BF with
  | true => exact (h.1 h1).symm
  | false =>
    cases h2 : toutes_premisses_vraies_boucle l' BF with
    | false => rfl
    | true =>
      rw [h.2 h2] at h1
      exact absurd h1 (by simp)

/-! ## Table included in the facts -/

theorem inclus_regle (R : Regle) (e : Etat)
    (h : ∀ f, hash_table_contains e.ht f = true → f ∈ e.BF.elems) :
    ∀ f, hash_table_contains (moteur_inference_regle R e).ht f = true →
      f ∈ (moteur_inference_regle R e).BF.elems := by
  rcases moteur_inference_regle_cas R e with ⟨_, h1⟩ | ⟨_, c, _, _, _, h1⟩
  · rw [h1]; exact h
  · rw [h1]
    intro f hf
    simp only [liste_ajouter_en_queue, List.mem_append, List.mem_singleton]
    rcases (hash_table_contains_insert e.ht c f).1 hf with h2 | h2
    · exact Or.inr h2
    · exact Or.inl (h f h2)

theorem moteur_inference_inclus (fuel : Nat) (BC : BaseConnaissances) (BF : BaseFaits)
    (ht : HashTable) (r : Etat)
    (hi : ∀ f, hash_table_contains ht f = true → f ∈ BF.elems)
    (h : moteur_inference fuel BC BF ht = some r) :
    ∀ f, hash_table_contains r.ht f = true → f ∈ r.BF.elems :=
  moteur_inference_inv (fun e => ∀ f, hash_table_contains e.ht f = true → f ∈ e.BF.elems) BC
    (fun _ he => he) (fun R _ e he => inclus_regle R e he) (fun _ he => he) fuel BF ht r hi h

theorem moteur_inference_conclut (fuel : Nat) (BC : BaseConnaissances) (BF : BaseFaits)
    (ht : HashTable) (r : Etat)
    (hi : ∀ f, hash_table_contains ht f = true → f ∈ BF.elems)
    (h : moteur_inference fuel BC BF ht = some r) (R : Regle) (c : CStr)
    (hR : R ∈ BC.regles) (hc : regle_obtenir_conclusion R = some c)
    (hp : ∀ p ∈ R.premisses.elems, p ∈ BF.elems) : c ∈ r.BF.elems := by
  have hinc := moteur_inference_inclus fuel BC BF ht r hi h
  have hna := (moteur_inference_fin fuel BC BF ht r h).2 R hR
  have hcr := moteur_inference_croissant fuel BC BF ht r h
  unfold regle_applicable at hna
  rw [hc] at hna
  have htp : toutes_premisses_vraies R r.BF = true :=
    (toutes_premisses_vraies_iff R r.BF).2 (fun p hpm => hcr p (hp p hpm))
  simp only [htp, Bool.true_and, Bool.not_eq_false'] at hna
  exact hinc c hna

/-! ## Rules that cannot fire -/

theorem regle_applicable_premisse_absente (R : Regle) (BF : BaseFaits) (ht : HashTable)
    (h : ∃ p ∈ R.premisses.elems, p ∉ BF.elems) : regle_applicable R BF ht = false := by
  unfold regle_applicable
  cases hc : regle_obtenir_conclusion R with
  | none => rfl
  | some c =>
    have htp : toutes_premisses_vraies R BF = false := by
      cases ht : toutes_premisses_vraies R BF with
      | false => rfl
      | true =>
        obtain ⟨p, hp, hn⟩ := h
        exact absurd ((toutes_premisses_vraies_iff R BF).1 ht p hp) hn
    simp [htp]

theorem moteur_inference_inerte (BC : BaseConnaissances) (BF : BaseFaits) (ht : HashTable)
    (h : ∀ R ∈ BC.regles, regle_applicable R BF ht = false) (k : Nat) :
    moteur_inference (k + 1) BC BF ht =
      some { BF := BF, ht := ht, nouveau := false, sortie := [Ligne.terminee] } := by
  have hp : moteur_inference_passe BC { BF := BF, ht := ht, nouveau := true, sortie := [] }
      = { BF := BF, ht := ht, nouveau := false, sortie := [] } := by
    unfold moteur_inference_passe
    exact moteur_inference_for_stable BC.regles _ h
  unfold moteur_inference
  simp only [moteur_inference_while, if_true, hp]
  rw [moteur_inference_while_faux BC k _ rfl]
  rfl

/-! ## The sample rule base, pass by pass -/

theorem bc_exemple_regles :
    bc_exemple.regles =
      [{ premisses := { elems := [strA], size := 1 }, conclusion := some strB },
       { premisses := { elems := [strB], size := 1 }, conclusion := some strC }] := rfl

theorem chainage_passes (ht : HashTable) (hm : Miroir bf_exemple ht) :
    moteur_inference_passe bc_exemple
        { BF := bf_exemple, ht := ht, nouveau := true, sortie := [] } =
      { BF := { elems := [strA, strB, strC], size := 3 }
        ht := hash_table_insert (hash_table_insert ht strB) strC
        nouveau := true
        sortie := [Ligne.deduction strB, Ligne.deduction strC] } ∧
    moteur_inference_passe bc_exemple
        { BF := { elems := [strA, strB, strC], size := 3 }
          ht := hash_table_insert (hash_table_insert ht strB) strC
          nouveau := true
          sortie := [Ligne.deduction strB, Ligne.deduction strC] } =
      { BF := { elems := [strA, strB, strC], size := 3 }
        ht := hash_table_insert (hash_table_insert ht strB) strC
        nouveau := false
        sortie := [Ligne.deduction strB, Ligne.deduction strC] } := by
  have hB : hash_table_contains ht strB = false := by
    cases h : hash_table_contains ht strB with
    | false => rfl
    | true => exact absurd ((hm strB).1 h) (by decide)
  have hC : hash_table_contains ht strC = false := by
    cases h : hash_table_contains ht strC with
    | false => rfl
    | true => exact absurd ((hm strC).1 h) (by decide)
  have hC1 : hash_table_contains (hash_table_insert ht strB) strC = false := by
    rw [hash_table_contains_insert_autre ht strB strC (by decide)]
    exact hC
  have hB2 : hash_table_contains (hash_table_insert (hash_table_insert ht strB) strC) strB
      = true :=
    (hash_table_contains_insert _ strC strB).2
      (Or.inr ((hash_table_contains_insert ht strB strB).2 (Or.inl rfl)))
  have hC2 : hash_table_contains (hash_table_insert (hash_table_insert ht strB) strC) strC
      = true :=
    (hash_table_contains_insert _ strC strC).2 (Or.inl rfl)
  have hA1 : toutes_premisses_vraies
      { premisses := { elems := [strA], size := 1 }, conclusion := some strB } bf_exemple
      = true := by decide
  have hA2 : toutes_premisses_vraies
      { premisses := { elems := [strB], size := 1 }, conclusion := some strC }
      (liste_ajouter_en_queue bf_exemple strB) = true := by decide
  have e1 : liste_ajouter_en_queue (liste_ajouter_en_queue bf_exemple strB) strC
      = { elems := [strA, strB, strC], size := 3 } := by decide
  constructor
  · unfold moteur_inference_passe
    rw [bc_exemple_regles]
    simp only [moteur_inference_for, moteur_inference_regle, regle_obtenir_conclusion,
      hA1, hB, hA2, hC1, e1, Bool.not_false, Bool.and_self, if_true, List.nil_append,
      List.cons_append]
  · unfold moteur_inference_passe
    rw [bc_exemple_regles]
    simp only [moteur_inference_for, moteur_inference_regle, regle_obtenir_conclusion,
      hB2, hC2, Bool.not_true, Bool.and_false, if_false]
    simp [hC2]

/-! ## Claims C11 to C20 -/

/-- C11, within-pass chaining: with the rules `[IF A THEN B, IF B THEN C]`, the
facts `[A]` and any table mirroring them, the first pass appends `B` then `C`
and announces them in that order, and the run returns after a second pass that
adds nothing, with the fact list exactly `[A, B, C]`. -/
theorem moteur_inference_chainage (ht : HashTable) (hm : Miroir bf_exemple ht) :
    moteur_inference_passe bc_exemple
        { BF := bf_exemple, ht := ht, nouveau := true, sortie := [] } =
      { BF := { elems := [strA, strB, strC], size := 3 }
        ht := hash_table_insert (hash_table_insert ht strB) strC
        nouveau := true
        sortie := [Ligne.deduction strB, Ligne.deduction strC] } ∧
    moteur_inference 2 bc_exemple bf_exemple ht =
      some { BF := { elems := [strA, strB, strC], size := 3 }
             ht := hash_table_insert (hash_table_insert ht strB) strC
             nouveau := false
             sortie := [Ligne.deduction strB, Ligne.deduction strC, Ligne.terminee] } := by
  obtain ⟨h1, h2⟩ := chainage_passes ht hm
  refine ⟨h1, ?_⟩
  unfold moteur_inference
  simp only [moteur_inference_while, if_true, h1, h2]
  simp

/-- Witness of C11 on the table rebuilt from the facts `[A]`. -/
theorem moteur_inference_chainage_temoin :
    Miroir bf_exemple ht_exemple ∧
    moteur_inference_passe bc_exemple
        { BF := bf_exemple, ht := ht_exemple, nouveau := true, sortie := [] } =
      { BF := { elems := [strA, strB, strC], size := 3 }
        ht := hash_table_insert (hash_table_insert ht_exemple strB) strC
        nouveau := true
        sortie := [Ligne.deduction strB, Ligne.deduction strC] } ∧
    moteur_inference 2 bc_exemple bf_exemple ht_exemple =
      some { BF := { elems := [strA, strB, strC], size := 3 }
             ht := hash_table_insert (hash_table_insert ht_exemple strB) strC
             nouveau := false
             sortie := [Ligne.deduction strB, Ligne.deduction strC, Ligne.terminee] } :=
  ⟨Miroir_exemple, moteur_inference_chainage ht_exemple Miroir_exemple⟩

/-- C12, vacuous rule fires: if the rule base holds a rule with no premise and
conclusion `X`, one run from the empty fact list and a table whose buckets are
all empty returns a state where `X` is in the fact list and in the table. -/
theorem moteur_inference_regle_sans_premisse (BC : BaseConnaissances) (R : Regle) (X : CStr)
    (ht : HashTable) (hR : R ∈ BC.regles) (hp : R.premisses.elems = [])
    (hc : regle_obtenir_conclusion R = some X) (hv : ∀ i, ht.table i = []) :
    ∃ r, moteur_inference (BC.regles.length + 1) BC liste_init ht = some r ∧
      liste_contient_rec r.BF X = true ∧ hash_table_contains r.ht X = true := by
  obtain ⟨r, hr⟩ := moteur_inference_retourne BC liste_init ht
  have hm : Miroir liste_init ht := by
    intro f
    rw [hash_table_contains_vide ht hv f]
    simp [liste_init]
  have hX : X ∈ r.BF.elems :=
    moteur_inference_clos _ BC liste_init ht r hm hr R hR X hc (by rw [hp]; simp)
  exact ⟨r, hr, (liste_contient_rec_iff r.BF X).2 hX,
    (moteur_inference_miroir _ BC liste_init ht r hm hr X).2 hX⟩

/-- Witness of C12 on the rule base holding the single rule `IF (nothing) THEN A`. -/
theorem moteur_inference_regle_sans_premisse_temoin :
    ∃ r, moteur_inference (bc_vide_A.regles.length + 1) bc_vide_A liste_init table_vide = some r ∧
      liste_contient_rec r.BF strA = true ∧ hash_table_contains r.ht strA = true :=
  moteur_inference_regle_sans_premisse bc_vide_A regle_vide_A strA table_vide
    (by decide) rfl rfl (fun _ => rfl)

/-- C13, single-rule deduction from a fresh index: with a table that has just
been initialised, whatever the rule base and the fact list, a rule of the base
with conclusion `c` whose premises are all facts has `c` found by
`liste_contient_rec` in the fact list the run returns. -/
theorem moteur_inference_table_neuve (BC : BaseConnaissances) (BF : BaseFaits)
    (ht0 : HashTable) (R : Regle) (c : CStr) (hR : R ∈ BC.regles)
    (hc : regle_obtenir_conclusion R = some c)
    (hp : ∀ p ∈ R.premisses.elems, p ∈ BF.elems) :
    ∃ r, moteur_inference (BC.regles.length + 1) BC BF (hash_table_init ht0) = some r ∧
      liste_contient_rec r.BF c = true := by
  obtain ⟨r, hr⟩ := moteur_inference_retourne BC BF (hash_table_init ht0)
  refine ⟨r, hr, (liste_contient_rec_iff r.BF c).2 ?_⟩
  refine moteur_inference_conclut _ BC BF _ r ?_ hr R c hR hc hp
  intro f hf
  rw [hash_table_contains_init] at hf
  exact absurd hf (by simp)

/-- Witness of C13: the scenario of `tests_inference`, rule `IF A THEN B`, facts
`[A]`, table just initialised. -/
theorem moteur_inference_table_neuve_temoin :
    ∃ r, moteur_inference (bc_test.regles.length + 1) bc_test bf_exemple
        (hash_table_init table_vide) = some r ∧
      liste_contient_rec r.BF strB = true :=
  moteur_inference_table_neuve bc_test bf_exemple table_vide regle_A_B strB
    (by decide) rfl (by decide)

/-- C14, premise-satisfaction test: `toutes_premisses_vraies R BF` is true
exactly when every premise of `R` is an element of `BF`, equivalently is found
by `liste_contient_rec`; it is true for a rule without premise, whatever the
fact list. -/
theorem toutes_premisses_vraies_correct (R : Regle) (BF : BaseFaits) :
    (toutes_premisses_vraies R BF = true ↔ ∀ p ∈ R.premisses.elems, p ∈ BF.elems) ∧
    (toutes_premisses_vraies R BF = true ↔
      ∀ p ∈ R.premisses.elems, liste_contient_rec BF p = true) ∧
    (∀ (n : Nat) (c : Option CStr),
      toutes_premisses_vraies { premisses := { elems := [], size := n }, conclusion := c } BF
        = true) := by
  refine ⟨toutes_premisses_vraies_iff R BF, ?_, fun _ _ => rfl⟩
  rw [toutes_premisses_vraies_iff]
  constructor
  · intro h p hp
    exact (liste_contient_rec_iff BF p).2 (h p hp)
  · intro h p hp
    exact (liste_contient_rec_iff BF p).1 (h p hp)

/-- C15, premise order independence: two rules whose premise lists are
permutations of each other are judged alike against any fact list. -/
theorem toutes_premisses_vraies_ordre (R R' : Regle) (BF : BaseFaits)
    (hp : R.premisses.elems.Perm R'.premisses.elems) :
    toutes_premisses_vraies R BF = toutes_premisses_vraies R' BF :=
  toutes_premisses_vraies_boucle_perm R.premisses.elems R'.premisses.elems BF hp

/-- Witness of C15 on `IF A AND B THEN C` and `IF B AND A THEN C`. -/
theorem toutes_premisses_vraies_ordre_temoin :
    regle_AB_C.premisses.elems.Perm regle_BA_C.premisses.elems ∧
    toutes_premisses_vraies regle_AB_C bf_exemple =
      toutes_premisses_vraies regle_BA_C bf_exemple :=
  ⟨List.Perm.swap _ _ [],
    toutes_premisses_vraies_ordre regle_AB_C regle_BA_C bf_exemple (List.Perm.swap _ _ [])⟩

/-- C16, premises are judged against the fact list, never the table: if every
rule of the base has a premise that is not a fact, the body of the rule loop
leaves every state holding these facts as it is, whatever its table contains,
and the run returns after one pass with the facts and the table unchanged. -/
theorem moteur_inference_premisses_sur_faits (BC : BaseConnaissances) (BF : BaseFaits)
    (ht : HashTable) (h : ∀ R ∈ BC.regles, ∃ p ∈ R.premisses.elems, p ∉ BF.elems) :
    (∀ R ∈ BC.regles, ∀ (ht' : HashTable) (n : Bool) (s : List Ligne),
      moteur_inference_regle R { BF := BF, ht := ht', nouveau := n, sortie := s } =
        { BF := BF, ht := ht', nouveau := n, sortie := s }) ∧
    (∀ k, moteur_inference (k + 1) BC BF ht =
      some { BF := BF, ht := ht, nouveau := false, sortie := [Ligne.terminee] }) := by
  constructor
  · intro R hR ht' n s
    exact moteur_inference_regle_stable R _
      (regle_applicable_premisse_absente R BF ht' (h R hR))
  · exact moteur_inference_inerte BC BF ht
      (fun R hR => regle_applicable_premisse_absente R BF ht (h R hR))

/-- Witness of C16: the rule `IF A THEN B`, no fact, and a table that contains
the premise `A`. -/
theorem moteur_inference_premisses_sur_faits_temoin :
    hash_table_contains ht_A strA = true ∧
    (∀ R ∈ bc_test.regles, ∀ (ht' : HashTable) (n : Bool) (s : List Ligne),
      moteur_inference_regle R { BF := liste_init, ht := ht', nouveau := n, sortie := s } =
        { BF := liste_init, ht := ht', nouveau := n, sortie := s }) ∧
    (∀ k, moteur_inference (k + 1) bc_test liste_init ht_A =
      some { BF := liste_init, ht := ht_A, nouveau := false, sortie := [Ligne.terminee] }) :=
  ⟨by decide, moteur_inference_premisses_sur_faits bc_test liste_init ht_A (by decide)⟩

/-- C17, insert then contains: after `hash_table_insert ht f`, the table
contains `f`, whatever the table and the string. -/
theorem hash_table_insert_contient (ht : HashTable) (f : CStr) :
    hash_table_contains (hash_table_insert ht f) f = true :=
  (hash_table_contains_insert ht f f).2 (Or.inl rfl)

/-- C18, insertion neither loses nor invents other entries: for a string `g`
different from the inserted string `f`, `hash_table_contains` answers for `g`
after the insertion what it answered before, also when `g` falls in the
bucket of `f`. -/
theorem hash_table_insert_cadre (ht : HashTable) (f g : CStr) (h : g ≠ f) :
    hash_table_contains (hash_table_insert ht f) g = hash_table_contains ht g :=
  hash_table_contains_insert_autre ht f g h

/-- Witness of C18: `"!*"` shares the bucket of `"A"` and stays in the table
when `"A"` is inserted; `"a"` is not in the table after `"A"` is inserted in an
empty one. -/
theorem hash_table_insert_cadre_temoin :
    str_collision ≠ strA ∧ hash_function str_collision = hash_function strA ∧
    hash_table_contains (hash_table_insert table_vide str_collision) str_collision = true ∧
    hash_table_contains (hash_table_insert (hash_table_insert table_vide str_collision) strA)
      str_collision =
    hash_table_contains (hash_table_insert table_vide str_collision) str_collision ∧
    str_a ≠ strA ∧ hash_table_contains table_vide str_a = false ∧
    hash_table_contains (hash_table_insert table_vide strA) str_a =
      hash_table_contains table_vide str_a :=
  ⟨by decide, by decide, by decide,
    hash_table_insert_cadre (hash_table_insert table_vide str_collision) strA str_collision
      (by decide),
    by decide, by decide, hash_table_insert_cadre table_vide strA str_a (by decide)⟩

/-- Counterexample to C19 as stated: the table holding `"A"` contains `"A"`,
and inserting `"A"` again changes it: the bucket of `"A"` then holds two nodes. -/
theorem hash_table_insert_doublon_contre_exemple :
    hash_table_contains ht_A strA = true ∧
    hash_table_insert ht_A strA ≠ ht_A ∧
    ht_A.table (hash_function strA) = [strA] ∧
    (hash_table_insert ht_A strA).table (hash_function strA) = [strA, strA] := by
  refine ⟨by decide, ?_, by decide, by decide⟩
  intro h
  have h1 : (hash_table_insert ht_A strA).table (hash_function strA)
      = ht_A.table (hash_function strA) := by rw [h]
  revert h1
  decide

/-- C19 as amended, duplicate insert keeps the membership: when the table
contains `f`, inserting `f` again leaves the answer of `hash_table_contains`
unchanged for every string; the table itself gets one more node for `f` at the
head of its bucket, the other buckets being untouched. -/
theorem hash_table_insert_doublon (ht : HashTable) (f : CStr)
    (h : hash_table_contains ht f = true) :
    (∀ g : CStr, hash_table_contains (hash_table_insert ht f) g = hash_table_contains ht g) ∧
    (hash_table_insert ht f).table (hash_function f) = f :: ht.table (hash_function f) ∧
    (∀ i, i ≠ hash_function f → (hash_table_insert ht f).table i = ht.table i) := by
  refine ⟨?_, ?_, ?_⟩
  · intro g
    by_cases hg : g = f
    · subst hg
      rw [h]
      exact (hash_table_contains_insert ht g g).2 (Or.inl rfl)
    · exact hash_table_contains_insert_autre ht f g hg
  · simp [hash_table_insert]
  · intro i hi
    simp [hash_table_insert, hi]

/-- Witness of C19 as amended, on the table holding `"A"`. -/
theorem hash_table_insert_doublon_temoin :
    hash_table_contains ht_A strA = true ∧
    ((∀ g : CStr, hash_table_contains (hash_table_insert ht_A strA) g
        = hash_table_contains ht_A g) ∧
    (hash_table_insert ht_A strA).table (hash_function strA)
      = strA :: ht_A.table (hash_function strA) ∧
    (∀ i, i ≠ hash_function strA → (hash_table_insert ht_A strA).table i = ht_A.table i)) :=
  ⟨by decide, hash_table_insert_doublon ht_A strA (by decide)⟩

/-- C20, clear empties the index: after `hash_table_clear` every bucket is
empty and the table contains no string; the table equals the one
`hash_table_init` produces, which contains no string either. -/
theorem hash_table_clear_vide (ht ht' : HashTable) :
    (∀ i, (hash_table_clear ht).table i = []) ∧
    (∀ f : CStr, hash_table_contains (hash_table_clear ht) f = false) ∧
    hash_table_clear ht = hash_table_init ht' ∧
    (∀ f : CStr, hash_table_contains (hash_table_init ht') f = false) := by
  refine ⟨hash_table_clear_table ht,
    hash_table_contains_vide _ (hash_table_clear_table ht), ?_, hash_table_contains_init ht'⟩
  have ht1 : (hash_table_clear ht).table = (hash_table_init ht').table := by
    funext j
    rw [hash_table_clear_table, hash_table_init_table]
  cases hc : hash_table_clear ht with
  | mk t1 =>
    cases hi : hash_table_init ht' with
    | mk t2 =>
      rw [hc, hi] at ht1
      simp only at ht1
      rw [ht1]

/-! ## Rules without conclusion -/

theorem moteur_inference_regle_sans_conclusion (R : Regle) (e : Etat)
    (h : regle_obtenir_conclusion R = none) : moteur_inference_regle R e = e := by
  unfold moteur_inference_regle
  rw [h]

theorem moteur_inference_for_filter (rs : List Regle) (e : Etat) :
    moteur_inference_for (rs.filter (fun R => (regle_obtenir_conclusion R).isSome)) e =
      moteur_inference_for rs e := by
  induction rs generalizing e with
  | nil => rfl
  | cons R next ih =>
    cases hc : regle_obtenir_conclusion R with
    | none =>
      rw [List.filter_cons_of_neg (by simp [hc])]
      simp only [moteur_inference_for]
      rw [moteur_inference_regle_sans_conclusion R e hc]
      exact ih e
    | some c =>
      rw [List.filter_cons_of_pos (by simp [hc])]
      simp only [moteur_inference_for]
      exact ih _

theorem moteur_inference_while_congr (BC BC' : BaseConnaissances)
    (h : ∀ e, moteur_inference_passe BC e = moteur_inference_passe BC' e) :
    ∀ (fuel : Nat) (e : Etat),
      moteur_inference_while BC fuel e = moteur_inference_while BC' fuel e := by
  intro fuel
  induction fuel with
  | zero => intro e; rfl
  | succ fuel ih =>
    intro e
    simp only [moteur_inference_while]
    rw [h e, ih]

theorem moteur_inference_congr (BC BC' : BaseConnaissances)
    (h : ∀ e, moteur_inference_passe BC e = moteur_inference_passe BC' e)
    (fuel : Nat) (BF : BaseFaits) (ht : HashTable) :
    moteur_inference fuel BC BF ht = moteur_inference fuel BC' BF ht := by
  unfold moteur_inference
  rw [moteur_inference_while_congr BC BC' h]

theorem regle_applicable_sans_conclusion (R : Regle) (BF : BaseFaits) (ht : HashTable)
    (h : regle_obtenir_conclusion R = none) : regle_applicable R BF ht = false := by
  unfold regle_applicable
  rw [h]

/-! ## The table only grows -/

theorem moteur_inference_table_croissante (fuel : Nat) (BC : BaseConnaissances)
    (BF : BaseFaits) (ht : HashTable) (r : Etat)
    (h : moteur_inference fuel BC BF ht = some r) :
    ∀ f, hash_table_contains ht f = true → hash_table_contains r.ht f = true := by
  refine moteur_inference_inv
    (fun e => ∀ f, hash_table_contains ht f = true → hash_table_contains e.ht f = true) BC
    (fun _ he => he) ?_ (fun _ he => he) fuel BF ht r (fun _ hf => hf) h
  intro R _ e he f hf
  rcases moteur_inference_regle_cas R e with ⟨_, h1⟩ | ⟨_, c, _, _, _, h1⟩
  · rw [h1]; exact he f hf
  · rw [h1]
    exact (hash_table_contains_insert e.ht c f).2 (Or.inr (he f hf))

/-! ## Claims C21 to C30 -/

/-- C21, a rule with no conclusion never fires: the body of the rule loop
leaves every state as it is for a rule whose conclusion is `NULL`; the run on
a rule base and the run on the base without these rules give the same result
with any number of passes allowed, and the run returns; when no rule has a
conclusion, it returns after one pass with the facts and the table unchanged. -/
theorem moteur_inference_sans_conclusion (BC : BaseConnaissances) (BF : BaseFaits)
    (ht : HashTable) :
    (∀ (R : Regle) (e : Etat), regle_obtenir_conclusion R = none →
      moteur_inference_regle R e = e) ∧
    (∀ (n fuel : Nat), moteur_inference fuel BC BF ht =
      moteur_inference fuel
        { regles := BC.regles.filter (fun R => (regle_obtenir_conclusion R).isSome), size := n }
        BF ht) ∧
    (∃ r, moteur_inference (BC.regles.length + 1) BC BF ht = some r) ∧
    ((∀ R ∈ BC.regles, regle_obtenir_conclusion R = none) →
      ∀ k, moteur_inference (k + 1) BC BF ht =
        some { BF := BF, ht := ht, nouveau := false, sortie := [Ligne.terminee] }) := by
  refine ⟨moteur_inference_regle_sans_conclusion, ?_, moteur_inference_retourne BC BF ht, ?_⟩
  · intro n fuel
    apply moteur_inference_congr
    intro e
    unfold moteur_inference_passe
    exact (moteur_inference_for_filter BC.regles _).symm
  · intro h
    exact moteur_inference_inerte BC BF ht
      (fun R hR => regle_applicable_sans_conclusion R BF ht (h R hR))

/-- Illustration of C21: the base `[IF A (no conclusion), IF A THEN B]` and the
base `[IF A THEN B]` give the same result on the facts `[A]`. -/
theorem moteur_inference_sans_conclusion_temoin :
    bc_sans_conclusion.regles.filter (fun R => (regle_obtenir_conclusion R).isSome)
      = bc_test.regles ∧
    ∀ fuel, moteur_inference fuel bc_sans_conclusion bf_exemple table_vide =
      moteur_inference fuel
        { regles := bc_sans_conclusion.regles.filter
            (fun R => (regle_obtenir_conclusion R).isSome), size := 1 }
        bf_exemple table_vide :=
  ⟨by decide,
    (moteur_inference_sans_conclusion bc_sans_conclusion bf_exemple table_vide).2.1 1⟩

/-- Counterexample to C22 as stated: with the rule `IF (nothing) THEN ""`, no
fact and an empty table, the run appends the empty string to the facts and
inserts it in the table. -/
theorem moteur_inference_conclusion_vide_contre_exemple :
    regle_obtenir_conclusion regle_conclusion_vide = some [] ∧
    regle_conclusion_vide ∈ bc_conclusion_vide.regles ∧
    (moteur_inference 2 bc_conclusion_vide liste_init table_vide).map (fun e => e.BF.elems)
      = some [[]] ∧
    (moteur_inference 2 bc_conclusion_vide liste_init table_vide).map
      (fun e => hash_table_contains e.ht []) = some true ∧
    (moteur_inference 2 bc_conclusion_vide liste_init table_vide).map (fun e => e.sortie)
      = some [Ligne.deduction [], Ligne.terminee] := by
  refine ⟨rfl, by decide, by decide, by decide, by decide⟩

/-- C22 as amended: a rule whose conclusion is the empty string is handled
like any other rule. When its premises are all facts and the table does not
contain the empty string, the body of the rule loop appends the empty string
to the facts, inserts it in the table and announces it; otherwise the state
is left as it is. -/
theorem moteur_inference_conclusion_vide (R : Regle) (e : Etat)
    (hc : regle_obtenir_conclusion R = some []) :
    (toutes_premisses_vraies R e.BF = true → hash_table_contains e.ht [] = false →
      moteur_inference_regle R e =
        { BF := liste_ajouter_en_queue e.BF []
          ht := hash_table_insert e.ht []
          nouveau := true
          sortie := e.sortie ++ [Ligne.deduction []] }) ∧
    (toutes_premisses_vraies R e.BF = false ∨ hash_table_contains e.ht [] = true →
      moteur_inference_regle R e = e) := by
  constructor
  · intro h1 h2
    simp [moteur_inference_regle, hc, h1, h2]
  · intro h
    apply moteur_inference_regle_stable
    unfold regle_applicable
    rw [hc]
    rcases h with h | h <;> simp [h]

/-- Witness of C22 as amended, on the rule `IF (nothing) THEN ""` and a state
with no fact and an empty table. -/
theorem moteur_inference_conclusion_vide_temoin :
    (toutes_premisses_vraies regle_conclusion_vide liste_init = true →
      hash_table_contains table_vide [] = false →
      moteur_inference_regle regle_conclusion_vide
          { BF := liste_init, ht := table_vide, nouveau := false, sortie := [] } =
        { BF := liste_ajouter_en_queue liste_init []
          ht := hash_table_insert table_vide []
          nouveau := true
          sortie := [] ++ [Ligne.deduction []] }) ∧
    (toutes_premisses_vraies regle_conclusion_vide liste_init = false ∨
        hash_table_contains table_vide [] = true →
      moteur_inference_regle regle_conclusion_vide
          { BF := liste_init, ht := table_vide, nouveau := false, sortie := [] } =
        { BF := liste_init, ht := table_vide, nouveau := false, sortie := [] }) :=
  moteur_inference_conclusion_vide regle_conclusion_vide
    { BF := liste_init, ht := table_vide, nouveau := false, sortie := [] } rfl

/-- C23, the engine never deletes from the index: a string that the table
contains before the run is contained in the table of the state the run
returns, and in the table left by each execution of the body of the rule
loop. -/
theorem moteur_inference_table_conservee (BC : BaseConnaissances) (BF : BaseFaits)
    (ht : HashTable) (f : CStr) (hf : hash_table_contains ht f = true) :
    (∃ r, moteur_inference (BC.regles.length + 1) BC BF ht = some r ∧
      hash_table_contains r.ht f = true) ∧
    (∀ (R : Regle) (e : Etat), hash_table_contains e.ht f = true →
      hash_table_contains (moteur_inference_regle R e).ht f = true) := by
  constructor
  · obtain ⟨r, hr⟩ := moteur_inference_retourne BC BF ht
    exact ⟨r, hr, moteur_inference_table_croissante _ BC BF ht r hr f hf⟩
  · intro R e he
    rcases moteur_inference_regle_cas R e with ⟨_, h1⟩ | ⟨_, c, _, _, _, h1⟩
    · rw [h1]; exact he
    · rw [h1]
      exact (hash_table_contains_insert e.ht c f).2 (Or.inr he)

/-- Witness of C23: the table holding `"A"`, with no fact and the sample rule
base. -/
theorem moteur_inference_table_conservee_temoin :
    hash_table_contains ht_A strA = true ∧
    ((∃ r, moteur_inference (bc_exemple.regles.length + 1) bc_exemple liste_init ht_A = some r ∧
      hash_table_contains r.ht strA = true) ∧
    (∀ (R : Regle) (e : Etat), hash_table_contains e.ht strA = true →
      hash_table_contains (moteur_inference_regle R e).ht strA = true)) :=
  ⟨by decide, moteur_inference_table_conservee bc_exemple liste_init ht_A strA (by decide)⟩

/-! ## A menu session that leaves the table behind the facts -/

theorem session_faits_regle_etat (fuel : Nat) (ht0 : HashTable) :
    main_boucle fuel session_faits_regle (main_depart ht0) =
      some { BC := bc_test, BF := bf_A_B, ht := hash_table_init ht0 } := rfl

theorem bc_test_regles :
    bc_test.regles =
      [{ premisses := { elems := [strA], size := 1 }, conclusion := some strB }] := rfl

theorem moteur_inference_bc_test_sans_B (ht : HashTable)
    (hB : hash_table_contains ht strB = false) :
    moteur_inference 2 bc_test bf_A_B ht =
      some { BF := { elems := [strA, strB, strB], size := 3 }
             ht := hash_table_insert ht strB
             nouveau := false
             sortie := [Ligne.deduction strB, Ligne.terminee] } := by
  have hB1 : hash_table_contains (hash_table_insert ht strB) strB = true :=
    (hash_table_contains_insert ht strB strB).2 (Or.inl rfl)
  have hA1 : toutes_premisses_vraies
      { premisses := { elems := [strA], size := 1 }, conclusion := some strB } bf_A_B
      = true := by decide
  have e1 : liste_ajouter_en_queue bf_A_B strB = { elems := [strA, strB, strB], size := 3 } := by
    decide
  have h1 : moteur_inference_passe bc_test
        { BF := bf_A_B, ht := ht, nouveau := true, sortie := [] } =
      { BF := { elems := [strA, strB, strB], size := 3 }
        ht := hash_table_insert ht strB
        nouveau := true
        sortie := [Ligne.deduction strB] } := by
    unfold moteur_inference_passe
    rw [bc_test_regles]
    simp only [moteur_inference_for, moteur_inference_regle, regle_obtenir_conclusion,
      hA1, hB, e1, Bool.not_false, Bool.and_self, if_true, List.nil_append]
  have h2 : moteur_inference_passe bc_test
        { BF := { elems := [strA, strB, strB], size := 3 }
          ht := hash_table_insert ht strB
          nouveau := true
          sortie := [Ligne.deduction strB] } =
      { BF := { elems := [strA, strB, strB], size := 3 }
        ht := hash_table_insert ht strB
        nouveau := false
        sortie := [Ligne.deduction strB] } := by
    unfold moteur_inference_passe
    rw [bc_test_regles]
    simp [moteur_inference_for, moteur_inference_regle, regle_obtenir_conclusion, hB1]
  unfold moteur_inference
  simp only [moteur_inference_while, if_true, h1, h2]
  simp

theorem moteur_inference_bc_test_avec_B (ht : HashTable)
    (hB : hash_table_contains ht strB = true) (BF : BaseFaits) (k : Nat) :
    moteur_inference (k + 1) bc_test BF ht =
      some { BF := BF, ht := ht, nouveau := false, sortie := [Ligne.terminee] } := by
  apply moteur_inference_inerte
  intro R hR
  rw [bc_test_regles, List.mem_singleton] at hR
  subst hR
  simp [regle_applicable, regle_obtenir_conclusion, hB]

theorem main_boucle_append (fuel : Nat) (l l' : List Commande) (p : Programme) :
    main_boucle fuel (l ++ l') p =
      match main_boucle fuel l p with
      | some p' => main_boucle fuel l' p'
      | none => none := by
  induction l generalizing p with
  | nil => rfl
  | cons c suite ih =>
    simp only [List.cons_append, main_boucle]
    cases main_etape fuel p c with
    | none => rfl
    | some p' => exact ih p'

theorem main_etape_lancer_bc_test (fuel : Nat) (BF : BaseFaits) (ht : HashTable) :
    main_etape fuel { BC := bc_test, BF := BF, ht := ht } Commande.lancer_inference =
      (match moteur_inference fuel bc_test BF ht with
        | some e => some { BC := bc_test, BF := e.BF, ht := e.ht }
        | none => none) := by
  have hv : bc_est_vide bc_test = false := by decide
  simp only [main_etape, hv, Bool.false_eq_true, if_false]

theorem main_etape_lancer_session (ht : HashTable)
    (hB : hash_table_contains ht strB = false) :
    main_etape 2 { BC := bc_test, BF := bf_A_B, ht := ht } Commande.lancer_inference =
      some { BC := bc_test
             BF := { elems := [strA, strB, strB], size := 3 }
             ht := hash_table_insert ht strB } := by
  rw [main_etape_lancer_bc_test, moteur_inference_bc_test_sans_B ht hB]

/-- C24, evaluated on a menu session: the facts `A` and `B` are added, then the
rule `IF A THEN B`, then the inference is run. The table was left empty by the
additions, the rule fires, and the program reaches a state whose fact list is
`[A, B, B]`, which holds `B` twice. -/
theorem main_faits_en_double (ht0 : HashTable) :
    main_boucle 2 (session_faits_regle ++ [Commande.lancer_inference]) (main_depart ht0) =
      some { BC := bc_test
             BF := { elems := [strA, strB, strB], size := 3 }
             ht := hash_table_insert (hash_table_init ht0) strB } ∧
    ¬ [strA, strB, strB].Nodup := by
  refine ⟨?_, by decide⟩
  rw [main_boucle_append, session_faits_regle_etat]
  simp only [main_boucle]
  rw [main_etape_lancer_session _ (hash_table_contains_init ht0 strB)]

/-- C25, evaluated on a menu session: after the facts `A` and `B` and the rule
`IF A THEN B` are added, the table does not mirror the facts; choice 3 runs
`moteur_inference` on that table as it is and the fact list becomes
`[A, B, B]`, whereas a run on the table rebuilt by `inference` leaves the
facts `[A, B]` unchanged. -/
theorem main_lance_sans_reconstruire (ht0 : HashTable) :
    main_boucle 2 session_faits_regle (main_depart ht0) =
      some { BC := bc_test, BF := bf_A_B, ht := hash_table_init ht0 } ∧
    ¬ Miroir bf_A_B (hash_table_init ht0) ∧
    main_etape 2 { BC := bc_test, BF := bf_A_B, ht := hash_table_init ht0 }
        Commande.lancer_inference =
      (match moteur_inference 2 bc_test bf_A_B (hash_table_init ht0) with
        | some e => some { BC := bc_test, BF := e.BF, ht := e.ht }
        | none => none) ∧
    (moteur_inference 2 bc_test bf_A_B (hash_table_init ht0)).map (fun e => e.BF) =
      some { elems := [strA, strB, strB], size := 3 } ∧
    (moteur_inference 2 bc_test bf_A_B (inference bf_A_B (hash_table_init ht0))).map
      (fun e => e.BF) = some bf_A_B := by
  refine ⟨rfl, ?_, ?_, ?_, ?_⟩
  · intro hm
    have := (hm strA).2 (by decide)
    rw [hash_table_contains_init] at this
    exact absurd this (by simp)
  · exact main_etape_lancer_bc_test 2 bf_A_B (hash_table_init ht0)
  · rw [moteur_inference_bc_test_sans_B (hash_table_init ht0) (hash_table_contains_init ht0 strB)]
    rfl
  · rw [moteur_inference_bc_test_avec_B _
      ((hash_table_contains_inference bf_A_B (hash_table_init ht0) strB).2 (by decide)) bf_A_B 1]
    rfl

/-- C26, a stale index gives a wrong result without failing: with the rule
`IF A THEN B`, the facts `[A]` and a table that holds `B`, the table does
not mirror the facts, the premise of the rule is a fact, the run returns after
one pass, and `B` is not among the facts it leaves. -/
theorem moteur_inference_index_perime :
    hash_table_contains ht_B strB = true ∧
    ¬ Miroir bf_exemple ht_B ∧
    regle_A_B ∈ bc_test.regles ∧
    regle_obtenir_conclusion regle_A_B = some strB ∧
    toutes_premisses_vraies regle_A_B bf_exemple = true ∧
    moteur_inference 1 bc_test bf_exemple ht_B =
      some { BF := bf_exemple, ht := ht_B, nouveau := false, sortie := [Ligne.terminee] } ∧
    liste_contient_rec bf_exemple strB = false := by
  refine ⟨by decide, ?_, by decide, rfl, by decide, ?_, by decide⟩
  · intro hm
    exact absurd ((hm strB).1 (by decide)) (by decide)
  · exact moteur_inference_bc_test_avec_B ht_B (by decide) bf_exemple 0

/-- Counterexample to C27 as stated: called with a `NULL` fact list, the
rebuild has no result, and in particular does not give back an empty table. -/
theorem inference_pointeur_nul_contre_exemple :
    inference_pointeur none table_vide = none ∧
    ∀ ht : HashTable, inference_pointeur none table_vide ≠ some ht := by
  refine ⟨rfl, ?_⟩
  intro ht h
  simp [inference_pointeur] at h

/-- C27 as amended: the rebuild needs a valid fact list. Called with a pointer
to a list it returns the rebuilt table, which contains nothing when the list
is empty; called with `NULL` it dereferences it and has no result. -/
theorem inference_pointeur_valide (L : BaseFaits) (ht : HashTable) :
    inference_pointeur (some L) ht = some (inference L ht) ∧
    (∀ f : CStr, hash_table_contains (inference liste_init ht) f = false) ∧
    (∀ i, (inference liste_init ht).table i = []) ∧
    inference_pointeur none ht = none := by
  refine ⟨rfl, ?_, ?_, rfl⟩
  · intro f
    cases h : hash_table_contains (inference liste_init ht) f with
    | false => rfl
    | true =>
      have := (hash_table_contains_inference liste_init ht f).1 h
      simp [liste_init] at this
  · intro i
    simp [inference, liste_init, inference_boucle, hash_table_init_table]

/-! ## Removal from a list -/

theorem liste_supprimer_premiere_boucle_none (l : List CStr) (s : CStr) :
    liste_supprimer_premiere_boucle l s = none ↔ s ∉ l := by
  induction l with
  | nil => simp [liste_supprimer_premiere_boucle]
  | cons t next ih =>
    by_cases h : t = s
    · simp [liste_supprimer_premiere_boucle, h]
    · have h' : ¬ s = t := fun e => h e.symm
      simp only [liste_supprimer_premiere_boucle, h, if_false, List.mem_cons, h', false_or]
      rw [← ih]
      cases liste_supprimer_premiere_boucle next s <;> simp

theorem liste_supprimer_premiere_boucle_some (l l' : List CStr) (s : CStr)
    (h : liste_supprimer_premiere_boucle l s = some l') :
    ∃ l1 l2, l = l1 ++ s :: l2 ∧ s ∉ l1 ∧ l' = l1 ++ l2 := by
  induction l generalizing l' with
  | nil => simp [liste_supprimer_premiere_boucle] at h
  | cons t next ih =>
    by_cases ht : t = s
    · simp only [liste_supprimer_premiere_boucle, ht, if_true, Option.some.injEq] at h
      exact ⟨[], next, by simp [ht], by simp, by simp [h]⟩
    · simp only [liste_supprimer_premiere_boucle, ht, if_false] at h
      cases hn : liste_supprimer_premiere_boucle next s with
      | none => rw [hn] at h; simp at h
      | some l0 =>
        rw [hn] at h
        simp only [Option.some.injEq] at h
        obtain ⟨l1, l2, h1, h2, h3⟩ := ih l0 hn
        refine ⟨t :: l1, l2, by simp [h1], ?_, by simp [← h, h3]⟩
        intro hm
        rcases List.mem_cons.1 hm with h4 | h4
        · exact ht h4.symm
        · exact h2 h4

theorem liste_supprimer_premiere_vrai (L : Liste) (s : CStr) :
    (liste_supprimer_premiere L s).1 = true ↔ s ∈ L.elems := by
  unfold liste_supprimer_premiere
  cases h : liste_supprimer_premiere_boucle L.elems s with
  | none =>
    have := (liste_supprimer_premiere_boucle_none L.elems s).1 h
    simp [this]
  | some l =>
    obtain ⟨l1, l2, h1, _, _⟩ := liste_supprimer_premiere_boucle_some L.elems l s h
    simp [h1]

/-- C28, list containment: `liste_contient_rec L s` is true exactly when some
element of `L` equals `s`, and is false on the empty list. -/
theorem liste_contient_rec_correct (L : Liste) (s : CStr) :
    (liste_contient_rec L s = true ↔ ∃ t ∈ L.elems, t = s) ∧
    liste_contient_rec liste_init s = false := by
  refine ⟨?_, rfl⟩
  rw [liste_contient_rec_iff]
  constructor
  · intro h
    exact ⟨s, h, rfl⟩
  · rintro ⟨t, ht, rfl⟩
    exact ht

/-- C29, list append: `liste_ajouter_en_queue L s` holds the elements of `L` in
the same order followed by `s`; when the size counter does not overflow it
grows by one; the head is that of `L` when `L` is not empty and `s` otherwise;
`liste_contient_rec` finds `s` afterwards. -/
theorem liste_ajouter_en_queue_correct (L : Liste) (s : CStr) (h : L.size + 1 < SIZE_MOD) :
    (liste_ajouter_en_queue L s).elems = L.elems ++ [s] ∧
    (liste_ajouter_en_queue L s).size = L.size + 1 ∧
    (L.elems ≠ [] → liste_tete (liste_ajouter_en_queue L s) = liste_tete L) ∧
    (L.elems = [] → liste_tete (liste_ajouter_en_queue L s) = some s) ∧
    liste_contient_rec (liste_ajouter_en_queue L s) s = true := by
  refine ⟨rfl, Nat.mod_eq_of_lt h, ?_, ?_, ?_⟩
  · intro hne
    cases hl : L.elems with
    | nil => exact absurd hl hne
    | cons t next => simp [liste_tete, liste_ajouter_en_queue, hl]
  · intro he
    simp [liste_tete, liste_ajouter_en_queue, he]
  · rw [liste_contient_rec_iff]
    simp [liste_ajouter_en_queue]

/-- Witness of C29 on the fact list `[A]` and the string `B`. -/
theorem liste_ajouter_en_queue_correct_temoin :
    bf_exemple.size + 1 < SIZE_MOD ∧
    (liste_ajouter_en_queue bf_exemple strB).elems = bf_exemple.elems ++ [strB] ∧
    (liste_ajouter_en_queue bf_exemple strB).size = bf_exemple.size + 1 ∧
    (bf_exemple.elems ≠ [] →
      liste_tete (liste_ajouter_en_queue bf_exemple strB) = liste_tete bf_exemple) ∧
    (bf_exemple.elems = [] → liste_tete (liste_ajouter_en_queue bf_exemple strB) = some strB) ∧
    liste_contient_rec (liste_ajouter_en_queue bf_exemple strB) strB = true :=
  ⟨by decide, liste_ajouter_en_queue_correct bf_exemple strB (by decide)⟩

/-- C30, remove by value: on a list whose size field is its number of elements,
`liste_supprimer_premiere L s` returns `true` exactly when `s` occurs in `L`;
it then removes the first occurrence of `s`, keeps the other elements in
order and decreases the size by one; when it returns `false` the list is
unchanged. `regle_supprimer_premisse` does the same on the premises of a rule
and keeps its conclusion. -/
theorem liste_supprimer_premiere_correct (L : Liste) (s : CStr)
    (hs : L.size = L.elems.length) (hb : L.elems.length < SIZE_MOD) :
    ((liste_supprimer_premiere L s).1 = true ↔ s ∈ L.elems) ∧
    ((liste_supprimer_premiere L s).1 = true →
      ∃ l1 l2, L.elems = l1 ++ s :: l2 ∧ s ∉ l1 ∧
        (liste_supprimer_premiere L s).2.elems = l1 ++ l2 ∧
        (liste_supprimer_premiere L s).2.size + 1 = L.size) ∧
    ((liste_supprimer_premiere L s).1 = false → (liste_supprimer_premiere L s).2 = L) ∧
    (∀ c : Option CStr,
      regle_supprimer_premisse { premisses := L, conclusion := c } s =
        ((liste_supprimer_premiere L s).1,
          { premisses := (liste_supprimer_premiere L s).2, conclusion := c })) := by
  refine ⟨liste_supprimer_premiere_vrai L s, ?_, ?_, fun _ => rfl⟩
  · intro h
    unfold liste_supprimer_premiere at h ⊢
    cases hl : liste_supprimer_premiere_boucle L.elems s with
    | none => rw [hl] at h; simp at h
    | some l =>
      obtain ⟨l1, l2, h1, h2, h3⟩ := liste_supprimer_premiere_boucle_some L.elems l s hl
      refine ⟨l1, l2, h1, h2, h3, ?_⟩
      have hlen : L.elems.length = l1.length + l2.length + 1 := by
        rw [h1]; simp; omega
      simp only
      have hpos : 0 < L.size := by omega
      have hlt : L.size < SIZE_MOD := by omega
      have : (L.size + SIZE_MOD - 1) % SIZE_MOD = L.size - 1 := by
        have e : L.size + SIZE_MOD - 1 = (L.size - 1) + SIZE_MOD := by omega
        rw [e, Nat.add_mod_right]
        exact Nat.mod_eq_of_lt (by omega)
      rw [this]
      omega
  · intro h
    unfold liste_supprimer_premiere at h ⊢
    cases hl : liste_supprimer_premiere_boucle L.elems s with
    | none => rfl
    | some l => rw [hl] at h; simp at h

/-- Witness of C30 on the fact list `[A, B]` and the string `A`. -/
theorem liste_supprimer_premiere_correct_temoin :
    bf_A_B.size = bf_A_B.elems.length ∧ bf_A_B.elems.length < SIZE_MOD ∧
    liste_supprimer_premiere bf_A_B strA = (true, { elems := [strB], size := 1 }) ∧
    (((liste_supprimer_premiere bf_A_B strA).1 = true ↔ strA ∈ bf_A_B.elems) ∧
    ((liste_supprimer_premiere bf_A_B strA).1 = true →
      ∃ l1 l2, bf_A_B.elems = l1 ++ strA :: l2 ∧ strA ∉ l1 ∧
        (liste_supprimer_premiere bf_A_B strA).2.elems = l1 ++ l2 ∧
        (liste_supprimer_premiere bf_A_B strA).2.size + 1 = bf_A_B.size) ∧
    ((liste_supprimer_premiere bf_A_B strA).1 = false →
      (liste_supprimer_premiere bf_A_B strA).2 = bf_A_B) ∧
    (∀ c : Option CStr,
      regle_supprimer_premisse { premisses := bf_A_B, conclusion := c } strA =
        ((liste_supprimer_premiere bf_A_B strA).1,
          { premisses := (liste_supprimer_premiere bf_A_B strA).2, conclusion := c }))) :=
  ⟨by decide, by decide, by decide,
    liste_supprimer_premiere_correct bf_A_B strA (by decide) (by decide)⟩

/-! ## Rule base operations -/

theorem bc_copier_premisses_spec (l : List CStr) (n : Regle) :
    (bc_copier_premisses l n).premisses.elems = n.premisses.elems ++ l ∧
    (bc_copier_premisses l n).conclusion = n.conclusion := by
  induction l generalizing n with
  | nil => simp [bc_copier_premisses]
  | cons p next ih =>
    obtain ⟨h1, h2⟩ := ih (regle_ajouter_premisse n p)
    simp only [bc_copier_premisses]
    rw [h1, h2]
    simp [regle_ajouter_premisse, liste_ajouter_en_queue]

theorem bc_supprimer_regle_index_boucle_some (l : List Regle) (idx : Nat)
    (h : idx < l.length) :
    ∃ l1 R l2, l = l1 ++ R :: l2 ∧ l1.length = idx ∧
      bc_supprimer_regle_index_boucle l idx = some (l1 ++ l2) := by
  induction l generalizing idx with
  | nil => simp at h
  | cons R next ih =>
    cases idx with
    | zero => exact ⟨[], R, next, rfl, rfl, rfl⟩
    | succ idx =>
      have h' : idx < next.length := by simpa using h
      obtain ⟨l1, R', l2, h1, h2, h3⟩ := ih idx h'
      refine ⟨R :: l1, R', l2, by simp [h1], by simp [h2], ?_⟩
      simp [bc_supprimer_regle_index_boucle, h3]

theorem size_moins_un (n : Nat) (h0 : 0 < n) (h1 : n < SIZE_MOD) :
    (n + SIZE_MOD - 1) % SIZE_MOD = n - 1 := by
  have e : n + SIZE_MOD - 1 = (n - 1) + SIZE_MOD := by omega
  rw [e, Nat.add_mod_right]
  exact Nat.mod_eq_of_lt (by omega)

/-! ## Claims C31 to C37 -/

/-- C31, rule-base append is a deep copy at the end: after
`bc_ajouter_regle_en_queue BC R` the rule base holds the former rules in order
followed by one rule with the premises of `R` in the same order and the
conclusion of `R`, unset when that of `R` is; when the size counter does not
overflow it grows by one. -/
theorem bc_ajouter_regle_en_queue_correct (BC : BaseConnaissances) (R : Regle)
    (h : BC.size + 1 < SIZE_MOD) :
    ∃ n : Regle, (bc_ajouter_regle_en_queue BC R).regles = BC.regles ++ [n] ∧
      n.premisses.elems = R.premisses.elems ∧
      regle_obtenir_conclusion n = regle_obtenir_conclusion R ∧
      (bc_ajouter_regle_en_queue BC R).size = BC.size + 1 := by
  obtain ⟨h1, h2⟩ := bc_copier_premisses_spec R.premisses.elems regle_init
  cases hc : R.conclusion with
  | none =>
    refine ⟨bc_copier_premisses R.premisses.elems regle_init, ?_, ?_, ?_, ?_⟩
    · simp [bc_ajouter_regle_en_queue, hc]
    · rw [h1]; simp [regle_init, liste_init]
    · simp only [regle_obtenir_conclusion, h2, hc]
      rfl
    · simp only [bc_ajouter_regle_en_queue]
      exact Nat.mod_eq_of_lt h
  | some c =>
    refine ⟨regle_definir_conclusion (bc_copier_premisses R.premisses.elems regle_init) c,
      ?_, ?_, ?_, ?_⟩
    · simp [bc_ajouter_regle_en_queue, hc]
    · simp only [regle_definir_conclusion]
      rw [h1]; simp [regle_init, liste_init]
    · simp [regle_obtenir_conclusion, regle_definir_conclusion, hc]
    · simp only [bc_ajouter_regle_en_queue]
      exact Nat.mod_eq_of_lt h

/-- Witness of C31: the rule `IF A THEN B` appended to the sample rule base. -/
theorem bc_ajouter_regle_en_queue_correct_temoin :
    bc_exemple.size + 1 < SIZE_MOD ∧
    ∃ n : Regle, (bc_ajouter_regle_en_queue bc_exemple regle_A_B).regles
        = bc_exemple.regles ++ [n] ∧
      n.premisses.elems = regle_A_B.premisses.elems ∧
      regle_obtenir_conclusion n = regle_obtenir_conclusion regle_A_B ∧
      (bc_ajouter_regle_en_queue bc_exemple regle_A_B).size = bc_exemple.size + 1 :=
  ⟨by decide, bc_ajouter_regle_en_queue_correct bc_exemple regle_A_B (by decide)⟩

/-- C32, indexed rule removal: on a rule base whose size field is its number
of rules, `bc_supprimer_regle_index BC idx` returns; it returns `false` exactly
when `idx >= size`, and then leaves the base unchanged; otherwise it returns
`true`, removes the rule at position `idx`, keeps the other rules in order and
decreases the size by one. -/
theorem bc_supprimer_regle_index_correct (BC : BaseConnaissances) (idx : Nat)
    (hs : BC.size = BC.regles.length) (hb : BC.regles.length < SIZE_MOD) :
    ∃ (b : Bool) (BC' : BaseConnaissances),
      bc_supprimer_regle_index BC idx = some (b, BC') ∧
      (b = false ↔ idx ≥ BC.size) ∧
      (b = false → BC' = BC) ∧
      (b = true → ∃ l1 R l2, BC.regles = l1 ++ R :: l2 ∧ l1.length = idx ∧
        BC'.regles = l1 ++ l2 ∧ BC'.size + 1 = BC.size) := by
  by_cases h : idx ≥ BC.size
  · refine ⟨false, BC, by simp [bc_supprimer_regle_index, h], by simp [h], fun _ => rfl, ?_⟩
    intro hf
    exact absurd hf (by simp)
  · have hlt : idx < BC.regles.length := by omega
    obtain ⟨l1, R, l2, h1, h2, h3⟩ := bc_supprimer_regle_index_boucle_some BC.regles idx hlt
    refine ⟨true, { regles := l1 ++ l2, size := (BC.size + SIZE_MOD - 1) % SIZE_MOD },
      by simp [bc_supprimer_regle_index, h, h3], by simp [h], ?_, ?_⟩
    · intro hf
      exact absurd hf (by simp)
    · intro _
      refine ⟨l1, R, l2, h1, h2, rfl, ?_⟩
      simp only
      rw [size_moins_un BC.size (by omega) (by omega)]
      omega

/-- Witness of C32: the rule of index 0 removed from the sample rule base. -/
theorem bc_supprimer_regle_index_correct_temoin :
    bc_exemple.size = bc_exemple.regles.length ∧ bc_exemple.regles.length < SIZE_MOD ∧
    ∃ (b : Bool) (BC' : BaseConnaissances),
      bc_supprimer_regle_index bc_exemple 0 = some (b, BC') ∧
      (b = false ↔ 0 ≥ bc_exemple.size) ∧
      (b = false → BC' = bc_exemple) ∧
      (b = true → ∃ l1 R l2, bc_exemple.regles = l1 ++ R :: l2 ∧ l1.length = 0 ∧
        BC'.regles = l1 ++ l2 ∧ BC'.size + 1 = bc_exemple.size) :=
  ⟨by decide, by decide,
    bc_supprimer_regle_index_correct bc_exemple 0 (by decide) (by decide)⟩

/-- C33, evaluated on the rule of `tests_regle`, `IF A AND B THEN C`: the call
`regle_definir_conclusion(&R, regle_obtenir_conclusion(&R))` passes the string
`C`, held in the conclusion buffer of the rule; the buffer is freed before it
is copied and the call has no defined result, as for every pointer into the
rule's own conclusion. A rule fresh from `regle_init` has no premise and no
conclusion, and for a string stored outside the rule the call returns a rule
with that conclusion, whatever the earlier one, and the same premises. -/
theorem regle_definir_conclusion_alias :
    regle_obtenir_conclusion regle_AB_C = some strC ∧
    pointeur_chaine regle_AB_C (PointeurChaine.dans_conclusion 0) = some strC ∧
    regle_definir_conclusion_pointeur regle_AB_C (PointeurChaine.dans_conclusion 0) = none ∧
    (∀ (R : Regle) (k : Nat),
      regle_definir_conclusion_pointeur R (PointeurChaine.dans_conclusion k) = none) ∧
    regle_init.premisses.elems = [] ∧
    regle_premisses_vide regle_init = true ∧
    regle_obtenir_conclusion regle_init = none ∧
    (∀ (R : Regle) (c : CStr),
      ∃ R', regle_definir_conclusion_pointeur R (PointeurChaine.externe c) = some R' ∧
        regle_obtenir_conclusion R' = some c ∧ R'.premisses = R.premisses) := by
  refine ⟨rfl, by decide, rfl, fun _ _ => rfl, rfl, rfl, rfl, ?_⟩
  intro R c
  exact ⟨regle_definir_conclusion R c, rfl, rfl, rfl⟩

/-! ## The announced deductions -/

theorem deductions_append_un (l : List Ligne) (x : Ligne) :
    deductions (l ++ [x]) = deductions l ++ deductions [x] := by
  induction l with
  | nil => simp [deductions]
  | cons y l ih =>
    cases y with
    | deduction c => simp [deductions, ih]
    | terminee => simp [deductions, ih]

theorem moteur_inference_deductions_fraiches (fuel : Nat) (BC : BaseConnaissances)
    (BF : BaseFaits) (ht : HashTable) (r : Etat)
    (h : moteur_inference fuel BC BF ht = some r) :
    (deductions r.sortie).Nodup ∧
    ∀ c ∈ deductions r.sortie,
      (∃ R ∈ BC.regles, regle_obtenir_conclusion R = some c) ∧
      hash_table_contains ht c = false := by
  have := moteur_inference_inv
    (fun e => (∀ f, hash_table_contains e.ht f = true ↔
        (hash_table_contains ht f = true ∨ f ∈ deductions e.sortie)) ∧
      (deductions e.sortie).Nodup ∧
      ∀ c ∈ deductions e.sortie,
        (∃ R ∈ BC.regles, regle_obtenir_conclusion R = some c) ∧
        hash_table_contains ht c = false) BC
    (fun _ he => he) ?_ ?_ fuel BF ht r ?_ h
  · exact this.2
  · intro R hR e ⟨he1, he2, he3⟩
    rcases moteur_inference_regle_cas R e with ⟨_, h1⟩ | ⟨_, c, hc, _, hn, h1⟩
    · rw [h1]; exact ⟨he1, he2, he3⟩
    · rw [h1]
      have hnot : ¬ (hash_table_contains ht c = true ∨ c ∈ deductions e.sortie) := by
        intro hx
        have := (he1 c).2 hx
        rw [hn] at this
        exact absurd this (by simp)
      have hc0 : hash_table_contains ht c = false := by
        cases hb : hash_table_contains ht c with
        | false => rfl
        | true => exact absurd (Or.inl hb) hnot
      have hcd : c ∉ deductions e.sortie := fun hx => hnot (Or.inr hx)
      simp only [deductions_append_un, deductions, List.mem_append, List.mem_singleton]
      refine ⟨?_, ?_, ?_⟩
      · intro f
        rw [hash_table_contains_insert, he1 f]
        tauto
      · rw [List.nodup_append]
        refine ⟨he2, List.nodup_singleton c, ?_⟩
        intro a ha hb
        rw [List.mem_singleton] at hb
        subst hb
        exact hcd ha
      · intro c' hc'
        rcases hc' with hc' | hc'
        · exact he3 c' hc'
        · subst hc'
          exact ⟨⟨R, hR, hc⟩, hc0⟩
  · intro e ⟨he1, he2, he3⟩
    simp only [deductions_append_un, deductions, List.append_nil]
    exact ⟨he1, he2, he3⟩
  · simp [deductions]

theorem moteur_inference_sortie_forme (fuel : Nat) (BC : BaseConnaissances)
    (BF : BaseFaits) (ht : HashTable) (r : Etat)
    (h : moteur_inference fuel BC BF ht = some r) :
    r.sortie = (deductions r.sortie).map Ligne.deduction ++ [Ligne.terminee] := by
  obtain ⟨e, he, rfl⟩ := moteur_inference_some fuel BC BF ht r h
  have hP := moteur_inference_while_inv
    (fun e => e.sortie = (deductions e.sortie).map Ligne.deduction) BC
    (fun _ he => he) ?_ fuel _ e (by simp [deductions]) he
  · simp only [deductions_append_un, deductions, List.append_nil]
    rw [← hP]
  · intro R _ e he
    rcases moteur_inference_regle_cas R e with ⟨_, h1⟩ | ⟨_, c, _, _, _, h1⟩
    · rw [h1]; exact he
    · rw [h1]
      simp only [deductions_append_un, deductions, List.map_append, List.map_cons,
        List.map_nil]
      rw [← he]

/-! ## Size of a list -/

theorem liste_appel_taille (L : Liste) (op : OpListe) (n : Nat)
    (hs : L.size = L.elems.length) (hn : L.elems.length ≤ n) (hb : n + 1 < SIZE_MOD) :
    (liste_appel L op).size = (liste_appel L op).elems.length ∧
    (liste_appel L op).elems.length ≤ n + 1 := by
  cases op with
  | ajouter s =>
    simp only [liste_appel, liste_ajouter_en_queue, List.length_append, List.length_singleton]
    rw [hs, Nat.mod_eq_of_lt (by omega)]
    exact ⟨rfl, by omega⟩
  | supprimer s =>
    simp only [liste_appel, liste_supprimer_premiere]
    cases hl : liste_supprimer_premiere_boucle L.elems s with
    | none =>
      simp only
      exact ⟨hs, by omega⟩
    | some l =>
      obtain ⟨l1, l2, h1, _, h3⟩ := liste_supprimer_premiere_boucle_some L.elems l s hl
      have hlen : L.elems.length = l1.length + l2.length + 1 := by
        rw [h1]; simp; omega
      have hl' : l.length = l1.length + l2.length := by rw [h3]; simp
      simp only
      rw [size_moins_un L.size (by omega) (by omega)]
      exact ⟨by omega, by omega⟩
  | vider =>
    simp only [liste_appel, liste_vider, liste_init, List.length_nil]
    exact ⟨trivial, by omega⟩

theorem liste_appels_taille (ops : List OpListe) (L : Liste) (n : Nat)
    (hs : L.size = L.elems.length) (hn : L.elems.length ≤ n)
    (hb : n + ops.length < SIZE_MOD) :
    (liste_appels ops L).size = (liste_appels ops L).elems.length := by
  induction ops generalizing L n with
  | nil => exact hs
  | cons op suite ih =>
    simp only [List.length_cons] at hb
    obtain ⟨h1, h2⟩ := liste_appel_taille L op n hs hn (by omega)
    simp only [liste_appels]
    exact ih (liste_appel L op) (n + 1) h1 h2 (by omega)

/-- C34, bucket index in range: for every string, the empty one included, the
accumulator of `hash_function` stays a `size_t` value (it wraps modulo
`2 ^ 64`), the index returned is the accumulator modulo `HASH_SIZE` and lies
between `0` and `HASH_SIZE - 1 = 999`; the empty string gets index `0`, and
equal strings get the same index. -/
theorem hash_function_dans_bornes (str : CStr) :
    hash_function_boucle 0 str < SIZE_MOD ∧
    (hash_function str).val = hash_function_boucle 0 str % HASH_SIZE ∧
    (hash_function str).val ≤ HASH_SIZE - 1 ∧
    HASH_SIZE - 1 = 999 ∧
    (hash_function []).val = 0 ∧
    (∀ str' : CStr, str' = str → hash_function str' = hash_function str) := by
  have hacc : ∀ (l : CStr) (hash : Nat), hash < SIZE_MOD →
      hash_function_boucle hash l < SIZE_MOD := by
    intro l
    induction l with
    | nil => intro hash hh; exact hh
    | cons c l ih =>
      intro hash _
      simp only [hash_function_boucle]
      exact ih _ (Nat.mod_lt _ (by decide))
  refine ⟨hacc str 0 (by decide), rfl, ?_, by decide, rfl, ?_⟩
  · have := (hash_function str).isLt
    omega
  · intro str' h
    rw [h]

/-- C35, facts derived in one run are fresh and pairwise distinct: for every
rule base, fact list and table, mirroring or not, the run returns with the
initial facts followed by the announced strings; these are pairwise distinct,
each is the conclusion of a rule of the base and was not in the table at the
start, and they are at most as many as the distinct conclusions of the base. -/
theorem moteur_inference_deductions_distinctes (BC : BaseConnaissances) (BF : BaseFaits)
    (ht : HashTable) :
    ∃ r, moteur_inference (BC.regles.length + 1) BC BF ht = some r ∧
      r.BF.elems = BF.elems ++ deductions r.sortie ∧
      (deductions r.sortie).Nodup ∧
      (∀ c ∈ deductions r.sortie,
        (∃ R ∈ BC.regles, regle_obtenir_conclusion R = some c) ∧
        hash_table_contains ht c = false) ∧
      (deductions r.sortie).length ≤ (conclusions BC).length := by
  obtain ⟨r, hr⟩ := moteur_inference_retourne BC BF ht
  obtain ⟨h1, h2⟩ := moteur_inference_deductions_fraiches _ BC BF ht r hr
  refine ⟨r, hr, moteur_inference_trace _ BC BF ht r hr, h1, h2, ?_⟩
  apply List.Subperm.length_le
  apply List.subperm_of_subset h1
  intro c hc
  obtain ⟨⟨R, hR, hRc⟩, _⟩ := h2 c hc
  exact mem_conclusions BC R c hR hRc

/-- C36, append-only trace: for every rule base, fact list and table, the run
returns with the initial facts, in their positions, followed in order by
exactly the strings of the lines `>> Nouvelle déduction`; its output is made
of these lines and of the closing line. -/
theorem moteur_inference_ajoute_en_queue (BC : BaseConnaissances) (BF : BaseFaits)
    (ht : HashTable) :
    ∃ r, moteur_inference (BC.regles.length + 1) BC BF ht = some r ∧
      r.BF.elems = BF.elems ++ deductions r.sortie ∧
      r.sortie = (deductions r.sortie).map Ligne.deduction ++ [Ligne.terminee] ∧
      BF.elems <+: r.BF.elems ∧
      (∀ i, i < BF.elems.length → r.BF.elems[i]? = BF.elems[i]?) := by
  obtain ⟨r, hr⟩ := moteur_inference_retourne BC BF ht
  have ht1 := moteur_inference_trace _ BC BF ht r hr
  refine ⟨r, hr, ht1, moteur_inference_sortie_forme _ BC BF ht r hr, ?_, ?_⟩
  · rw [ht1]
    exact List.prefix_append _ _
  · intro i hi
    rw [ht1]
    exact List.getElem?_append_left hi

/-- C37, list size invariant: for a list built from `liste_init` by a sequence
of fewer than `2 ^ 64` calls of `liste_ajouter_en_queue`,
`liste_supprimer_premiere` and `liste_vider`, the size field is the number of
elements, `liste_est_vide` holds exactly when the size is `0`, and
`liste_vider` leaves the empty list with size `0`. -/
theorem liste_taille_invariant (ops : List OpListe) (h : ops.length < SIZE_MOD) :
    (liste_appels ops liste_init).size = (liste_appels ops liste_init).elems.length ∧
    (liste_est_vide (liste_appels ops liste_init) = true ↔
      (liste_appels ops liste_init).size = 0) ∧
    liste_vider (liste_appels ops liste_init) = { elems := [], size := 0 } ∧
    liste_est_vide (liste_vider (liste_appels ops liste_init)) = true := by
  have hs := liste_appels_taille ops liste_init 0 rfl (by simp [liste_init]) (by omega)
  refine ⟨hs, ?_, rfl, rfl⟩
  rw [hs]
  simp [liste_est_vide]

/-- Witness of C37: the calls of `tests_liste`, and the list after its first
three calls. -/
theorem liste_taille_invariant_temoin :
    appels_tests_liste.length < SIZE_MOD ∧
    liste_appels appels_tests_liste.dropLast liste_init = { elems := [strB], size := 1 } ∧
    ((liste_appels appels_tests_liste liste_init).size
        = (liste_appels appels_tests_liste liste_init).elems.length ∧
    (liste_est_vide (liste_appels appels_tests_liste liste_init) = true ↔
      (liste_appels appels_tests_liste liste_init).size = 0) ∧
    liste_vider (liste_appels appels_tests_liste liste_init) = { elems := [], size := 0 } ∧
    liste_est_vide (liste_vider (liste_appels appels_tests_liste liste_init)) = true) :=
  ⟨by decide, by decide, liste_taille_invariant appels_tests_liste (by decide)⟩

end Moteur
